import Mathlib

/-!
Verification of the schema-driven XML-to-table transformation engine of the
`ht_chpp` repository.  The Python sources under `src/utils/xml_parser.py`,
`src/utils/types.py` and `src/processors/generic.py` are shallowly embedded
as executable Lean definitions: Python dicts become association lists,
Python values become the inductive `Val`, YAML configuration values become
the inductive `Yaml`, and code that can raise exceptions returns
`Except String`.  Mutation of the input mapping (performed by the
foreign-key injection) is modelled by explicit state passing: extraction
returns both the post-state of the mapping and the extracted records.
-/

set_option maxHeartbeats 1000000

namespace HtChpp

/-- Polars column types reachable through `get_polars_type_mapping`
(`src/utils/types.py`): `Int64`, `Utf8`, `Float64`, `Boolean`, `Date`,
`Datetime`. -/
inductive PlType : Type where
  | int64 : PlType
  | utf8 : PlType
  | float64 : PlType
  | boolean : PlType
  | date : PlType
  | datetime : PlType
deriving DecidableEq, Repr

/-- YAML configuration values (schema definitions from `endpoints.yaml`):
strings, lists and string-keyed mappings. -/
inductive Yaml : Type where
  | s : String → Yaml
  | list : List Yaml → Yaml
  | dict : List (String × Yaml) → Yaml

mutual

/-- Decidable equality for `Yaml` (the `deriving` handler does not support
nested inductives). -/
def decEqY : (a b : Yaml) → Decidable (a = b)
  | .s x, .s y =>
      if h : x = y then isTrue (by rw [h]) else isFalse (by simp [h])
  | .s _, .list _ => isFalse (by simp)
  | .s _, .dict _ => isFalse (by simp)
  | .list _, .s _ => isFalse (by simp)
  | .list xs, .list ys =>
      match decEqYL xs ys with
      | isTrue h => isTrue (by rw [h])
      | isFalse h => isFalse (by simp [h])
  | .list _, .dict _ => isFalse (by simp)
  | .dict _, .s _ => isFalse (by simp)
  | .dict _, .list _ => isFalse (by simp)
  | .dict xs, .dict ys =>
      match decEqYD xs ys with
      | isTrue h => isTrue (by rw [h])
      | isFalse h => isFalse (by simp [h])
termination_by structural a => a

/-- Decidable equality for lists of `Yaml`. -/
def decEqYL : (a b : List Yaml) → Decidable (a = b)
  | [], [] => isTrue rfl
  | [], _ :: _ => isFalse (by simp)
  | _ :: _, [] => isFalse (by simp)
  | x :: xs, y :: ys =>
      match decEqY x y, decEqYL xs ys with
      | isTrue h1, isTrue h2 => isTrue (by rw [h1, h2])
      | isFalse h1, _ => isFalse (by simp [h1])
      | _, isFalse h2 => isFalse (by simp [h2])
termination_by structural a => a

/-- Decidable equality for string-keyed `Yaml` association lists. -/
def decEqYD : (a b : List (String × Yaml)) → Decidable (a = b)
  | [], [] => isTrue rfl
  | [], _ :: _ => isFalse (by simp)
  | _ :: _, [] => isFalse (by simp)
  | (k, x) :: xs, (l, y) :: ys =>
      if hk : k = l then
        match decEqY x y, decEqYD xs ys with
        | isTrue h1, isTrue h2 => isTrue (by rw [hk, h1, h2])
        | isFalse h1, _ => isFalse (by simp [h1])
        | _, isFalse h2 => isFalse (by simp [h2])
      else isFalse (by simp [hk])
termination_by structural a => a

end

instance : DecidableEq Yaml := decEqY

/-- Python runtime values appearing in the parsed nested mapping:
`None`, `int`, `float` (modelled as rationals), `bool`, `str`, `list`
and string-keyed `dict` (modelled as an association list in insertion
order, as Python dicts preserve insertion order). -/
inductive Val : Type where
  | vNone : Val
  | vInt : Int → Val
  | vRat : Rat → Val
  | vBool : Bool → Val
  | vStr : String → Val
  | vList : List Val → Val
  | vDict : List (String × Val) → Val

mutual

/-- Decidable equality for `Val` (the `deriving` handler does not support
nested inductives). -/
def decEqV : (a b : Val) → Decidable (a = b)
  | .vNone, .vNone => isTrue rfl
  | .vNone, .vInt _ => isFalse (by simp)
  | .vNone, .vRat _ => isFalse (by simp)
  | .vNone, .vBool _ => isFalse (by simp)
  | .vNone, .vStr _ => isFalse (by simp)
  | .vNone, .vList _ => isFalse (by simp)
  | .vNone, .vDict _ => isFalse (by simp)
  | .vInt _, .vNone => isFalse (by simp)
  | .vInt x, .vInt y =>
      if h : x = y then isTrue (by rw [h]) else isFalse (by simp [h])
  | .vInt _, .vRat _ => isFalse (by simp)
  | .vInt _, .vBool _ => isFalse (by simp)
  | .vInt _, .vStr _ => isFalse (by simp)
  | .vInt _, .vList _ => isFalse (by simp)
  | .vInt _, .vDict _ => isFalse (by simp)
  | .vRat _, .vNone => isFalse (by simp)
  | .vRat _, .vInt _ => isFalse (by simp)
  | .vRat x, .vRat y =>
      if h : x = y then isTrue (by rw [h]) else isFalse (by simp [h])
  | .vRat _, .vBool _ => isFalse (by simp)
  | .vRat _, .vStr _ => isFalse (by simp)
  | .vRat _, .vList _ => isFalse (by simp)
  | .vRat _, .vDict _ => isFalse (by simp)
  | .vBool _, .vNone => isFalse (by simp)
  | .vBool _, .vInt _ => isFalse (by simp)
  | .vBool _, .vRat _ => isFalse (by simp)
  | .vBool x, .vBool y =>
      if h : x = y then isTrue (by rw [h]) else isFalse (by simp [h])
  | .vBool _, .vStr _ => isFalse (by simp)
  | .vBool _, .vList _ => isFalse (by simp)
  | .vBool _, .vDict _ => isFalse (by simp)
  | .vStr _, .vNone => isFalse (by simp)
  | .vStr _, .vInt _ => isFalse (by simp)
  | .vStr _, .vRat _ => isFalse (by simp)
  | .vStr _, .vBool _ => isFalse (by simp)
  | .vStr x, .vStr y =>
      if h : x = y then isTrue (by rw [h]) else isFalse (by simp [h])
  | .vStr _, .vList _ => isFalse (by simp)
  | .vStr _, .vDict _ => isFalse (by simp)
  | .vList _, .vNone => isFalse (by simp)
  | .vList _, .vInt _ => isFalse (by simp)
  | .vList _, .vRat _ => isFalse (by simp)
  | .vList _, .vBool _ => isFalse (by simp)
  | .vList _, .vStr _ => isFalse (by simp)
  | .vList xs, .vList ys =>
      match decEqVL xs ys with
      | isTrue h => isTrue (by rw [h])
      | isFalse h => isFalse (by simp [h])
  | .vList _, .vDict _ => isFalse (by simp)
  | .vDict _, .vNone => isFalse (by simp)
  | .vDict _, .vInt _ => isFalse (by simp)
  | .vDict _, .vRat _ => isFalse (by simp)
  | .vDict _, .vBool _ => isFalse (by simp)
  | .vDict _, .vStr _ => isFalse (by simp)
  | .vDict _, .vList _ => isFalse (by simp)
  | .vDict xs, .vDict ys =>
      match decEqVD xs ys with
      | isTrue h => isTrue (by rw [h])
      | isFalse h => isFalse (by simp [h])
termination_by structural a => a

/-- Decidable equality for lists of `Val`. -/
def decEqVL : (a b : List Val) → Decidable (a = b)
  | [], [] => isTrue rfl
  | [], _ :: _ => isFalse (by simp)
  | _ :: _, [] => isFalse (by simp)
  | x :: xs, y :: ys =>
      match decEqV x y, decEqVL xs ys with
      | isTrue h1, isTrue h2 => isTrue (by rw [h1, h2])
      | isFalse h1, _ => isFalse (by simp [h1])
      | _, isFalse h2 => isFalse (by simp [h2])
termination_by structural a => a

/-- Decidable equality for string-keyed `Val` association lists. -/
def decEqVD : (a b : List (String × Val)) → Decidable (a = b)
  | [], [] => isTrue rfl
  | [], _ :: _ => isFalse (by simp)
  | _ :: _, [] => isFalse (by simp)
  | (k, x) :: xs, (l, y) :: ys =>
      if hk : k = l then
        match decEqV x y, decEqVD xs ys with
        | isTrue h1, isTrue h2 => isTrue (by rw [hk, h1, h2])
        | isFalse h1, _ => isFalse (by simp [h1])
        | _, isFalse h2 => isFalse (by simp [h2])
      else isFalse (by simp [hk])
termination_by structural a => a

end

instance : DecidableEq Val := decEqV

/-- Decidable equality for `Except`, for evaluating the embedding on
concrete inputs. -/
instance {α β : Type} [DecidableEq α] [DecidableEq β] : DecidableEq (Except α β) :=
  fun a b =>
    match a, b with
    | .ok x, .ok y =>
        if h : x = y then isTrue (by rw [h]) else isFalse (by simp [h])
    | .error x, .error y =>
        if h : x = y then isTrue (by rw [h]) else isFalse (by simp [h])
    | .ok _, .error _ => isFalse (by simp)
    | .error _, .ok _ => isFalse (by simp)

/-- Python dict lookup `d.get(k)` / `d[k]` on an association list
(keys of dicts built by the embedding are unique, so the first match is
the only match). -/
def dget {α : Type} (d : List (String × α)) (k : String) : Option α :=
  (d.find? (fun e => e.1 = k)).map (fun e => e.2)

/-- Python dict item assignment `d[k] = v`: overwrite in place (keeping the
key's position) when the key exists, otherwise append at the end —
exactly Python's insertion-order semantics. -/
def dset {α : Type} (d : List (String × α)) (k : String) (v : α) : List (String × α) :=
  if d.any (fun e => e.1 = k) then d.map (fun e => if e.1 = k then (k, v) else e)
  else d ++ [(k, v)]

/-- Split a character list on a separator character (semantics of Python's
`str.split(sep)`): `"".split` gives one empty group, and separators at the
ends give empty groups. -/
def splitOnChar (sep : Char) : List Char → List (List Char)
  | [] => [[]]
  | c :: cs =>
      match splitOnChar sep cs with
      | g :: gs => if c = sep then [] :: g :: gs else (c :: g) :: gs
      | [] => if c = sep then [[], []] else [[c]]

/-- Whitespace-trimming on character lists (Python's `str.strip()` as used
by `int()`/`float()` on their argument). -/
def chTrim (cs : List Char) : List Char :=
  ((cs.dropWhile Char.isWhitespace).reverse.dropWhile Char.isWhitespace).reverse

/-- ASCII lower-casing (Python's `str.lower()` restricted to ASCII, which
is all `safe_cast` compares against). -/
def strLower (s : String) : String :=
  String.mk (s.data.map Char.toLower)

/-- Python's `value.replace(',', '.')`: replace every comma by a period. -/
def replaceCommas (s : String) : String :=
  String.mk (s.data.map (fun c => if c = ',' then '.' else c))

/-- Is `pat` a prefix of `cs`? -/
def chPfx : List Char → List Char → Bool
  | [], _ => true
  | _ :: _, [] => false
  | a :: as, b :: bs => a = b && chPfx as bs

/-- Does the string `s` end with `pat` (Python's `str.endswith`)? -/
def strEndsWith (s pat : String) : Bool :=
  chPfx pat.data.reverse s.data.reverse

/-- Does `hay` contain `needle` as a substring (Python's `in` on strings)?
An empty needle is contained in everything, as in Python. -/
def strHasSub (hay needle : String) : Bool :=
  (List.range (hay.data.length + 1)).any (fun i => chPfx needle.data (hay.data.drop i))

/-- Numeric value of a digit list, most significant first. -/
def digitsToNat (ds : List Char) : Nat :=
  ds.foldl (fun n c => 10 * n + (c.toNat - '0'.toNat)) 0

/-- Parse a nonempty all-digit character list. -/
def parseDigits (cs : List Char) : Option Nat :=
  if cs ≠ [] ∧ cs.all Char.isDigit then some (digitsToNat cs) else none

/-- Python's `int(s)` for decimal literals: optional surrounding
whitespace, optional sign, a nonempty run of digits; anything else raises
`ValueError`, modelled as `none`. -/
def pyInt (s : String) : Option Int :=
  match chTrim s.data with
  | '-' :: rest => (parseDigits rest).map (fun n => -(n : Int))
  | '+' :: rest => (parseDigits rest).map (fun n => (n : Int))
  | cs => (parseDigits cs).map (fun n => (n : Int))

/-- Mantissa of a decimal float literal (`digits`, `digits.digits`,
`digits.` or `.digits`), returned as numerator digits together with the
power of ten of the denominator. -/
def parseMantissa (cs : List Char) : Option (Nat × Nat) :=
  match splitOnChar '.' cs with
  | [ip] => (parseDigits ip).map (fun n => (n, 0))
  | [ip, fp] =>
      if ip.isEmpty ∧ fp.isEmpty then none
      else if ip.all Char.isDigit ∧ fp.all Char.isDigit then
        some (digitsToNat (ip ++ fp), fp.length)
      else none
  | _ => none

/-- Python's `float(s)` for finite decimal literals: optional sign,
decimal mantissa, optional exponent.  (The special values `inf`/`nan`
accepted by Python are outside the scope of the theorems below.) -/
def pyFloat (s : String) : Option Rat :=
  let signCs : Int × List Char :=
    match chTrim s.data with
    | '-' :: rest => (-1, rest)
    | '+' :: rest => (1, rest)
    | cs => (1, cs)
  let sign := signCs.1
  let cs := signCs.2
  let parts := if cs.contains 'e' then splitOnChar 'e' cs else splitOnChar 'E' cs
  match parts with
  | [m] => (parseMantissa m).map (fun nd => mkRat (sign * nd.1) ((10 : Nat) ^ nd.2))
  | [m, e] =>
      (parseMantissa m).bind (fun nd =>
        let es : Bool × List Char :=
          match e with
          | '-' :: r => (true, r)
          | '+' :: r => (false, r)
          | r => (false, r)
        (parseDigits es.2).map (fun en =>
          if es.1 then mkRat (sign * nd.1) ((10 : Nat) ^ (nd.2 + en))
          else mkRat (sign * nd.1 * (10 : Nat) ^ en) ((10 : Nat) ^ nd.2)))
  | _ => none

/-- `safe_cast` (`src/utils/xml_parser.py`, lines 12-30): cast an optional
string to the target type tag.  `if not value: return None` handles both
`None` and the empty string; a failed `int`/`float` conversion is caught
and yields `None`; for `float` any comma is first replaced by a period;
`bool` is a case-insensitive comparison with `"true"`; `str` and every
unrecognized target type return the string unchanged. -/
def safe_cast (value : Option String) (target_type : Yaml) : Val :=
  match value with
  | none => .vNone
  | some v =>
    if v = "" then .vNone
    else match target_type with
      | .s "int" =>
          match pyInt v with
          | some n => .vInt n
          | none => .vNone
      | .s "float" =>
          match pyFloat (replaceCommas v) with
          | some q => .vRat q
          | none => .vNone
      | .s "bool" => .vBool (strLower v = "true")
      | .s "str" => .vStr v
      | _ => .vStr v

/-- An XML element as exposed by `xml.etree.ElementTree`: a tag, an
attribute mapping, optional text and a list of child elements. -/
inductive XmlElement : Type where
  | mk : String → List (String × String) → Option String → List XmlElement → XmlElement

def XmlElement.tag : XmlElement → String
  | .mk t _ _ _ => t

def XmlElement.attrs : XmlElement → List (String × String)
  | .mk _ a _ _ => a

def XmlElement.text : XmlElement → Option String
  | .mk _ _ s _ => s

def XmlElement.children : XmlElement → List XmlElement
  | .mk _ _ _ c => c

mutual

/-- Size of an XML element, for termination of the recursive parser. -/
def xsize : XmlElement → Nat
  | .mk _ _ _ ch => 1 + xsizeList ch
termination_by structural e => e

/-- Total size of a list of XML elements. -/
def xsizeList : List XmlElement → Nat
  | [] => 0
  | c :: cs => xsize c + xsizeList cs
termination_by structural l => l

end

def xsize_pos (e : XmlElement) : 0 < xsize e := by
  cases e with
  | mk t a s ch => simp [xsize]

def le_xsizeList_of_mem {c : XmlElement} {l : List XmlElement} (h : c ∈ l) :
    xsize c ≤ xsizeList l := by
  induction l with
  | nil => cases h
  | cons x xs ih =>
      rcases List.mem_cons.mp h with h1 | h1
      · subst h1; simp [xsizeList]
      · have := ih h1
        simp [xsizeList]
        omega

def xsizeList_filter_le (p : XmlElement → Bool) (l : List XmlElement) :
    xsizeList (l.filter p) ≤ xsizeList l := by
  induction l with
  | nil => simp [xsizeList]
  | cons x xs ih =>
      by_cases hx : p x
      · simp [List.filter, hx, xsizeList]; omega
      · simp [List.filter, hx, xsizeList]
        have := xsize_pos x
        omega

def xsizeList_children_lt (e : XmlElement) : xsizeList e.children < xsize e := by
  cases e with
  | mk t a s ch => simp [xsize, XmlElement.children]

mutual

/-- Size of a `Yaml` value, for termination of the schema-driven
recursions. -/
def ysize : Yaml → Nat
  | .s _ => 1
  | .list l => 1 + ysizeL l
  | .dict d => 1 + ysizeD d
termination_by structural y => y

/-- Total size of a list of `Yaml` values. -/
def ysizeL : List Yaml → Nat
  | [] => 0
  | y :: ys => ysize y + ysizeL ys
termination_by structural l => l

/-- Total size of a string-keyed `Yaml` association list. -/
def ysizeD : List (String × Yaml) → Nat
  | [] => 0
  | e :: es => 1 + ysize e.2 + ysizeD es
termination_by structural l => l

end

def ysize_pos (y : Yaml) : 0 < ysize y := by
  cases y <;> simp [ysize]

/-- `element.findall(name)`: all direct children with the given tag, in
document order. -/
def findall (el : XmlElement) (name : String) : List XmlElement :=
  el.children.filter (fun c => c.tag = name)

/-- `element.find(name)`: the first direct child with the given tag, if
any. -/
def findEl (el : XmlElement) (name : String) : Option XmlElement :=
  el.children.find? (fun c => c.tag = name)

/-- `element.get(attr_name)`: attribute lookup returning `None` when
absent. -/
def attrGet (el : XmlElement) (name : String) : Option String :=
  dget el.attrs name

/-- `field_name.lstrip('@')`: strip all leading `@` characters. -/
def stripAts (name : String) : String :=
  String.mk (name.data.dropWhile (fun c => c = '@'))

/-- `field_name.startswith('@')`. -/
def startsWithAt (name : String) : Bool :=
  chPfx ['@'] name.data

def xsizeList_findall_le (el : XmlElement) (name : String) :
    xsizeList (findall el name) ≤ xsizeList el.children := by
  exact xsizeList_filter_le _ _

def xsize_lt_of_findall_eq {el : XmlElement} {name : String}
    {l : List XmlElement} (h : findall el name = l) {c : XmlElement}
    (hc : c ∈ l) : xsize c < xsize el := by
  have h1 : c ∈ findall el name := h ▸ hc
  have h2 : c ∈ el.children := List.mem_of_mem_filter h1
  calc xsize c ≤ xsizeList el.children := le_xsizeList_of_mem h2
    _ < xsize el := xsizeList_children_lt el

def xsizeList_lt_of_findall (el : XmlElement) (name : String) :
    xsizeList (findall el name) < xsize el :=
  lt_of_le_of_lt (xsizeList_findall_le el name) (xsizeList_children_lt el)

def lexNat_of_le {a₁ a₂ b₁ b₂ : Nat} (ha : a₁ ≤ a₂) (hb : b₁ < b₂) :
    Prod.Lex (fun x y => x < y) (fun x y => x < y) (a₁, b₁) (a₂, b₂) := by
  rcases lt_or_eq_of_le ha with h | h
  · exact Prod.Lex.left _ _ h
  · subst h; exact Prod.Lex.right _ hb

def lexNat_of_lt {a₁ a₂ : Nat} (b₁ b₂ : Nat) (ha : a₁ < a₂) :
    Prod.Lex (fun x y => x < y) (fun x y => x < y) (a₁, b₁) (a₂, b₂) :=
  Prod.Lex.left _ _ ha

mutual

/-- `parse_element` (`src/utils/xml_parser.py`, lines 33-93): walk the
schema (a YAML list of field-descriptor dicts) against an XML element and
build the nested mapping.  The Python function contains no exception
handler, so shape defects of the schema raise and the embedding returns
`Except.error`:
* a schema that is not a list, or a field descriptor that is not a dict,
  makes the Python `for` loops raise (`AttributeError` on `.items()`),
* a nested field config that is an empty dict makes
  `list(field_config.keys())[0]` raise `IndexError`. -/
def parse_element (el : XmlElement) (schema : Yaml) :
    Except String (List (String × Val)) :=
  match schema with
  | .list fds => parseDefs el fds []
  | _ => Except.error "AttributeError: schema elements have no attribute items"
termination_by (xsize el, ysize schema)
decreasing_by
  exact lexNat_of_le le_rfl (by simp [ysize])

/-- The `for field_def in schema` loop of `parse_element`, threading the
`result` dict through as `acc`. -/
def parseDefs (el : XmlElement) (fds : List Yaml) (acc : List (String × Val)) :
    Except String (List (String × Val)) :=
  match fds with
  | [] => pure acc
  | fd :: rest =>
    match fd with
    | .dict entries => do
        let acc2 ← parseEntries el entries acc
        parseDefs el rest acc2
    | _ => Except.error "AttributeError: field_def has no attribute items"
termination_by (xsize el, ysizeL fds)
decreasing_by
  · exact lexNat_of_le le_rfl (by simp [ysize, ysizeL]; try omega)
  · exact lexNat_of_le le_rfl (by simp [ysize, ysizeL]; try omega)

/-- The `for field_name, field_config in field_def.items()` loop of
`parse_element`. -/
def parseEntries (el : XmlElement) (entries : List (String × Yaml))
    (acc : List (String × Val)) : Except String (List (String × Val)) :=
  match entries with
  | [] => pure acc
  | (name, cfg) :: rest => do
      let acc2 ← parseOneField el name cfg acc
      parseEntries el rest acc2
termination_by (xsize el, ysizeD entries)
decreasing_by
  · exact lexNat_of_le le_rfl (by simp [ysizeD]; try omega)
  · exact lexNat_of_le le_rfl (by simp [ysizeD]; try omega)

/-- The body of `parse_element`'s inner loop for a single field
descriptor.  A dict-valued `field_config` is the nested case (lines
48-76): `nested_type = list(field_config.keys())[0]` (raising
`IndexError` on an empty dict), then the three-way split on the number of
matching children.  Any other `field_config` is the simple-field case
(lines 78-91) resolved through `safe_cast`. -/
def parseOneField (el : XmlElement) (name : String) (cfg : Yaml)
    (acc : List (String × Val)) : Except String (List (String × Val)) :=
  match cfg with
  | .dict [] => Except.error "IndexError: list index out of range"
  | .dict ((nestedType, nestedSchema) :: _) =>
    match hfa : findall el name with
    | [] => pure (dset acc name (.vList []))
    | [child] =>
      match hna : findall child nestedType with
      | [] => do
          let d ← parse_element child nestedSchema
          pure (dset acc name (.vList [.vDict d]))
      | nc :: ncs => do
          let vs ← parseChildren (nc :: ncs) nestedSchema
          pure (dset acc name (.vList vs))
    | c1 :: c2 :: cs => do
        let vs ← parseChildren (c1 :: c2 :: cs) nestedSchema
        pure (dset acc name (.vList vs))
  | _ =>
    let value : Option String :=
      if startsWithAt name then attrGet el (String.mk (name.data.drop 1))
      else match findEl el name with
        | some child => child.text
        | none => none
    pure (dset acc (stripAts name) (safe_cast value cfg))
termination_by (xsize el, ysize cfg)
decreasing_by
  · exact lexNat_of_lt _ _ (xsize_lt_of_findall_eq hfa (by simp))
  · exact lexNat_of_lt _ _
      (lt_trans (hna ▸ xsizeList_lt_of_findall child nestedType)
        (xsize_lt_of_findall_eq hfa (by simp)))
  · exact lexNat_of_lt _ _ (hfa ▸ xsizeList_lt_of_findall el name)

/-- The list comprehensions `[parse_element(child, nested_schema) for
child in ...]` of `parse_element`. -/
def parseChildren (els : List XmlElement) (schema : Yaml) :
    Except String (List Val) :=
  match els with
  | [] => pure []
  | c :: cs => do
      let d ← parse_element c schema
      let rest ← parseChildren cs schema
      pure (.vDict d :: rest)
termination_by (xsizeList els, ysize schema + 1)
decreasing_by
  · exact lexNat_of_le (by simp [xsizeList]) (by omega)
  · exact lexNat_of_lt _ _ (by have := xsize_pos c; simp [xsizeList]; omega)

end

/-- Decidable equality for the result type of `transform_data` (spelled
out because automatic synthesis stops at this nesting depth). -/
instance : DecidableEq (List (String × Val) × List (String × (List (String × PlType) × List Val))) :=
  @instDecidableEqProd _ _ inferInstance inferInstance

/-- The per-child foreign-key injection of `_extract_data_from_path`
(`src/processors/generic.py`, lines 158-164): iterate a list-valued
`nested_data`; when `foreign_key` is set and present on the parent
record, write it onto each child **in place** (`nested_record[fk] = ...`
mutates an element of the input structure; a non-dict child raises
`TypeError` on the item assignment).  Returns the updated list together
with the emitted records, which are the very same (updated) children. -/
def fkValue (parentD : List (String × Val)) (fk : Option String) :
    Option (String × Val) :=
  match fk with
  | some k =>
      match dget parentD k with
      | some v => some (k, v)
      | none => none
  | none => none

/-- The body of the injection loop for one child: with the foreign key
present, a dict child gets the key set on it in place, and a non-dict
child raises `TypeError` on the item assignment; without it the child
passes through untouched. -/
def injectOne (x : Val) (fkv : Option (String × Val)) : Except String Val :=
  match fkv with
  | some kv =>
      match x with
      | .vDict xd => pure (Val.vDict (dset xd kv.1 kv.2))
      | _ => .error "TypeError: item assignment on non-dict"
  | none => pure x

def injectList (xs : List Val) (parentD : List (String × Val))
    (fk : Option String) : Except String (List Val × List Val) :=
  match xs with
  | [] => pure ([], [])
  | x :: rest => do
      let x' ← injectOne x (fkValue parentD fk)
      let r ← injectList rest parentD fk
      pure (x' :: r.1, x' :: r.2)

/-- Processing of one parent record in `_extract_data_from_path`
(`src/processors/generic.py`, lines 152-171): read the last path segment
off the parent (`parent_record.get(...)`, raising `AttributeError` when
the parent is not a dict); a list value goes through in-place foreign-key
injection, a dict value is **copied** (`nested_data.copy()`) before the
foreign key is added, anything else (including `None`) emits nothing.
Returns the (possibly mutated) parent record and the emitted records. -/
def extractFromParentDict (d : List (String × Val)) (last : String)
    (fk : Option String) : Except String (Val × List Val) :=
  match dget d last with
  | some (.vList xs) => do
      let r ← injectList xs d fk
      pure (.vDict (dset d last (.vList r.1)), r.2)
  | some (.vDict nd) =>
      match fk with
      | some k =>
          match dget d k with
          | some v => pure (.vDict d, [.vDict (dset nd k v)])
          | none => pure (.vDict d, [.vDict nd])
      | none => pure (.vDict d, [.vDict nd])
  | some _ => pure (.vDict d, [])
  | none => pure (.vDict d, [])

def extractFromParent (pr : Val) (last : String) (fk : Option String) :
    Except String (Val × List Val) :=
  match pr with
  | .vDict d => extractFromParentDict d last fk
  | _ => Except.error "AttributeError: parent_record has no attribute get"

/-- The `for parent_record in parent_data` loop of
`_extract_data_from_path`, threading the mutated parents through. -/
def extractParents (prs : List Val) (last : String) (fk : Option String) :
    Except String (List Val × List Val) :=
  match prs with
  | [] => pure ([], [])
  | pr :: rest => do
      let h ← extractFromParent pr last fk
      let t ← extractParents rest last fk
      pure (h.1 :: t.1, h.2 ++ t.2)

/-- `isinstance(parent_data, list)` dispatch of `_extract_data_from_path`
(lines 150-173): a non-list parent collection emits nothing. -/
def extractAtParents (parentData : Val) (last : String) (fk : Option String) :
    Except String (Val × List Val) :=
  match parentData with
  | .vList prs => do
      let r ← extractParents prs last fk
      pure (.vList r.1, r.2)
  | v => pure (v, [])

/-- The navigation loop `for part in path_parts[:-1]: parent_data =
parent_data.get(part, [])` of `_extract_data_from_path` (lines 146-148),
combined with the write-back of in-place mutations.  Calling `.get` on a
non-dict intermediate value (for instance the `[]` default left by an
earlier missing key, or a list) raises `AttributeError`.  When a key is
missing, the `[]` default is a fresh object not stored in the dict, so
the dict itself is returned unchanged. -/
def navInner (v : Val) (parts : List String) (last : String)
    (fk : Option String) : Except String (Val × List Val) :=
  match parts with
  | [] => extractAtParents v last fk
  | p :: rest =>
    match v with
    | .vDict d =>
      match dget d p with
      | some sub => do
          let r ← navInner sub rest last fk
          pure (.vDict (dset d p r.1), r.2)
      | none => do
          let r ← navInner (.vList []) rest last fk
          pure (.vDict d, r.2)
    | _ => Except.error "AttributeError: parent_data has no attribute get"

/-- The copy-and-inject step of the single-segment branch of
`_extract_data_from_path` (lines 181-190): `record.copy()` raises
`AttributeError` for records without a `copy` method; list records copy
fine but then raise `TypeError` on the string-keyed item assignment, which
only happens if some requested parent field is present in the top-level
data. -/
def copyInject (raw : List (String × Val)) (pf : List String) (r : Val) :
    Except String Val :=
  match r with
  | .vDict d =>
      pure (.vDict (pf.foldl (fun acc f =>
        match dget raw f with
        | some v => dset acc f v
        | none => acc) d))
  | .vList xs =>
      if pf.any (fun f => (dget raw f).isSome) then
        Except.error "TypeError: list indices must be integers"
      else pure (.vList xs)
  | _ => Except.error "AttributeError: record has no attribute copy"

/-- The single-segment branch of `_extract_data_from_path` (lines
174-192): read the key off the top level (`raw_data.get(source_path, [])`;
the `[]` default passes the `isinstance(..., list)` check, so a missing
key yields no records), return `[]` for a non-list value, and inject
`parent_fields` into copies when requested — otherwise return the stored
list itself (aliasing the input). -/
def singleSegment (raw : List (String × Val)) (sp : String)
    (pf : List String) : Except String (List (String × Val) × List Val) :=
  match dget raw sp with
  | some (.vList xs) =>
      if pf.isEmpty then pure (raw, xs)
      else do
        let recs ← xs.mapM (copyInject raw pf)
        pure (raw, recs)
  | some _ => pure (raw, [])
  | none => pure (raw, [])

/-- `_extract_data_from_path` (`src/processors/generic.py`, lines
118-192).  Returns the post-state of `raw_data` (the Python code mutates
nested records in place during foreign-key injection) together with the
extracted records.  `parent_fields` is only applied on the single-segment
branch and `foreign_key` only on the multi-segment branch, exactly as in
the source. -/
def extract_data_from_path (raw : List (String × Val)) (source_path : String)
    (fk : Option String) (pf : List String) :
    Except String (List (String × Val) × List Val) :=
  if source_path = "" then pure (raw, [])
  else
    match splitOnChar '.' source_path.data with
    | [] => singleSegment raw source_path pf
    | [_] => singleSegment raw source_path pf
    | p1 :: rest =>
      match dget raw (String.mk p1) with
      | some sub => do
          let r ← navInner sub (rest.dropLast.map String.mk)
            (String.mk (rest.getLastD [])) fk
          pure (dset raw (String.mk p1) r.1, r.2)
      | none => do
          let r ← navInner (.vList []) (rest.dropLast.map String.mk)
            (String.mk (rest.getLastD [])) fk
          pure (raw, r.2)

/-- One lookup step of `_find_schema_definition` in a list-shaped schema
node: the first dict item containing the part (lines 251-261). -/
def findInList (items : List Yaml) (part : String) : Option Yaml :=
  items.findSome? (fun it =>
    match it with
    | .dict es => dget es part
    | _ => none)

/-- The fallback scan of `_find_schema_definition` over a dict node's
values (lines 267-282): the first list value containing a dict item with
the part. -/
def findNested (entries : List (String × Yaml)) (part : String) : Option Yaml :=
  entries.findSome? (fun e =>
    match e.2 with
    | .list items => findInList items part
    | _ => none)

/-- The `for part in path_parts` walk of `_find_schema_definition`
(`src/processors/generic.py`, lines 245-287).  A failed lookup returns
`{}` immediately (modelled as `.dict []`). -/
def schemaWalk (cur : Yaml) (parts : List String) : Yaml :=
  match parts with
  | [] => cur
  | p :: rest =>
    match cur with
    | .list items =>
        match findInList items p with
        | some next => schemaWalk next rest
        | none => .dict []
    | .dict entries =>
        match dget entries p with
        | some next => schemaWalk next rest
        | none =>
            match findNested entries p with
            | some next => schemaWalk next rest
            | none => .dict []
    | _ => .dict []

/-- `_find_schema_definition` (`src/processors/generic.py`, lines
236-287): empty path returns the whole API schema; otherwise start under
the `HattrickData` key and walk the dotted path; the final value is
returned only if it is a dict, else `{}`. -/
def find_schema_definition (apiSchema : List (String × Yaml))
    (source_path : String) : List (String × Yaml) :=
  if source_path = "" then apiSchema
  else
    match dget apiSchema "HattrickData" with
    | none => []
    | some hd =>
        match schemaWalk hd ((splitOnChar '.' source_path.data).map String.mk) with
        | .dict d => d
        | _ => []

/-- `_find_field_definition` (`src/processors/generic.py`, lines
352-357): the first dict in the field-definition list containing the
field name (the Python function returns the dict itself, or `{}`). -/
def find_field_definition (fds : List Yaml) (name : String) :
    Option (List (String × Yaml)) :=
  fds.findSome? (fun fd =>
    match fd with
    | .dict es => if (dget es name).isSome then some es else none
    | _ => none)

/-- The per-field body of `_flatten_record` (`src/processors/generic.py`,
lines 313-348), folding the `flattened` dict through:
* a one-element list of a dict collapses: its entries are merged, and a
  nested one-element list of a dict collapses one extra level;
* a dict value whose field definition is a dict containing the field name
  has its inner `field_name` entry merged (`.get(field_name, {})`, so a
  missing inner key merges nothing and drops the field), a non-dict inner
  value keeps the field as is;
* everything else is copied as is. -/
def flattenField (fds : List Yaml) (acc : List (String × Val))
    (fieldName : String) (fieldValue : Val) : List (String × Val) :=
  match fieldValue with
  | .vList [.vDict nested] =>
      nested.foldl (fun a e =>
        match e.2 with
        | .vList [.vDict deep] =>
            deep.foldl (fun a2 e2 => dset a2 e2.1 e2.2) a
        | _ => dset a e.1 e.2) acc
  | .vDict d =>
      match find_field_definition fds fieldName with
      | some _ =>
          match dget d fieldName with
          | some (.vDict nested) =>
              nested.foldl (fun a e => dset a e.1 e.2) acc
          | some _ => dset acc fieldName (.vDict d)
          | none => acc
      | none => dset acc fieldName (.vDict d)
  | _ => dset acc fieldName fieldValue

/-- `_flatten_record` (`src/processors/generic.py`, lines 289-350):
non-dict records are returned unchanged; `field_definitions` is the first
list value of the schema definition and an absent or empty one returns
the record unchanged (`if not field_definitions`); otherwise each record
field is processed by `flattenField` into a fresh dict. -/
def flatten_record (record : Val) (schemaDef : List (String × Yaml)) : Val :=
  match record with
  | .vDict rec =>
      match schemaDef.findSome? (fun e =>
          match e.2 with
          | .list l => some l
          | _ => none) with
      | none => .vDict rec
      | some [] => .vDict rec
      | some fds => .vDict (rec.foldl (fun acc e => flattenField fds acc e.1 e.2) [])
  | r => r

/-- `_flatten_nested_objects` (`src/processors/generic.py`, lines
194-234): empty data or an empty API schema pass through; an empty
schema definition for the source path passes through; otherwise each
record is flattened. -/
def flatten_nested_objects (tableData : List Val)
    (apiSchema : List (String × Yaml)) (source_path : String) : List Val :=
  if tableData.isEmpty ∨ apiSchema.isEmpty then tableData
  else
    let schemaDef := find_schema_definition apiSchema source_path
    if schemaDef.isEmpty then tableData
    else tableData.map (fun r => flatten_record r schemaDef)

/-- The name-to-type table of `get_polars_type_mapping`
(`src/utils/types.py`, lines 28-35); unknown Polars type names fall back
to `Utf8` (lines 42-44). -/
def plNameMap (n : String) : Option PlType :=
  if n = "Int64" then some .int64
  else if n = "Utf8" then some .utf8
  else if n = "Float64" then some .float64
  else if n = "Boolean" then some .boolean
  else if n = "Date" then some .date
  else if n = "Datetime" then some .datetime
  else none

/-- `get_polars_type_mapping` (`src/utils/types.py`, lines 14-46).
`typesDef` models `config.get_definitions().get('types', {})`, the
YAML-type-name to Polars-type-name dictionary loaded from
`definitions.yaml` (external to the engine). -/
def get_polars_type_mapping (typesDef : List (String × String)) :
    List (String × PlType) :=
  typesDef.foldl (fun acc e => dset acc e.1 ((plNameMap e.2).getD .utf8)) []

mutual

/-- `_extract_from_fields` inside `extract_field_types`
(`src/utils/types.py`, lines 63-77), threading the shared `field_types`
dict through as `acc`.  The recursion into a nested structure uses the
prefix `f"{field_name}."` — only the immediate parent name, not the
accumulated dotted path, exactly as in the source.  Iterating a non-list
`fields` or a non-dict field definition raises, and an empty nested
config dict raises `IndexError` on `list(field_config.keys())[0]`. -/
def extract_from_fields (tm : List (String × PlType)) (fields : Yaml)
    (pref : String) (acc : List (String × PlType)) :
    Except String (List (String × PlType)) :=
  match fields with
  | .list fds => effDefs tm fds pref acc
  | _ => Except.error "TypeError: fields is not iterable as field defs"
termination_by structural fields

/-- The `for field_def in fields` loop of `_extract_from_fields`. -/
def effDefs (tm : List (String × PlType)) (fds : List Yaml) (pref : String)
    (acc : List (String × PlType)) : Except String (List (String × PlType)) :=
  match fds with
  | [] => pure acc
  | .dict entries :: rest => do
      let a2 ← effEntries tm entries pref acc
      effDefs tm rest pref a2
  | _ :: _ => Except.error "AttributeError: field_def has no attribute items"
termination_by structural fds

/-- The `for field_name, field_config in field_def.items()` loop of
`_extract_from_fields`: a string config records a type (unknown YAML
types fall back to `Utf8`), a dict config recurses into the nested
fields under the first key, and any other config (for instance a list)
is silently skipped, exactly as in the source. -/
def effEntries (tm : List (String × PlType)) (entries : List (String × Yaml))
    (pref : String) (acc : List (String × PlType)) :
    Except String (List (String × PlType)) :=
  match entries with
  | [] => pure acc
  | (fn, cfg) :: rest => do
      let a2 ←
        match cfg with
        | .s t => pure (dset acc (pref ++ fn) ((dget tm t).getD .utf8))
        | .dict [] => Except.error "IndexError: list index out of range"
        | .dict ((_, nfields) :: _) => extract_from_fields tm nfields (fn ++ ".") acc
        | .list _ => pure acc
      effEntries tm rest pref a2
termination_by structural entries

end

/-- `extract_field_types` (`src/utils/types.py`, lines 49-84):
`main_object_type = list(yaml_schema.keys())[0]` raises `IndexError` on
an empty schema dict; the walk starts from the first key's fields with
an empty prefix. -/
def extract_field_types (yamlSchema : List (String × Yaml))
    (typesDef : List (String × String)) :
    Except String (List (String × PlType)) :=
  match yamlSchema with
  | [] => Except.error "IndexError: list index out of range"
  | (_, mainFields) :: _ =>
      extract_from_fields (get_polars_type_mapping typesDef) mainFields "" []

/-- The scan over `main_fields` in the third stage of
`create_table_schema` (`src/utils/types.py`, lines 122-128): the first
dict field definition containing the field name with a **string** type
sets the type and breaks; a dict containing the name with a non-string
value does not break; a string element checks `field_name in field_def`
by substring and raises `TypeError` on indexing when it matches; a list
element checks membership and likewise raises on a match; an exhausted
scan falls back to `Utf8` (lines 130-132). -/
def mainScan (f : String) (fds : List Yaml) (tm : List (String × PlType)) :
    Except String PlType :=
  match fds with
  | [] => pure .utf8
  | fd :: rest =>
    match fd with
    | .dict es =>
        match dget es f with
        | some (.s yt) => pure ((dget tm yt).getD .utf8)
        | some _ => mainScan f rest tm
        | none => mainScan f rest tm
    | .s s =>
        if strHasSub s f then Except.error "TypeError: string indices must be integers"
        else mainScan f rest tm
    | .list items =>
        if items.contains (.s f) then Except.error "TypeError: list indices must be integers"
        else mainScan f rest tm

/-- Iteration of `for field_def in main_fields` for the possible Python
shapes of `main_fields`: a list iterates its items, a dict iterates its
keys (strings), a string iterates its characters (strings). -/
def mainLookup (f : String) (mainFields : Yaml) (tm : List (String × PlType)) :
    Except String PlType :=
  match mainFields with
  | .list fds => mainScan f fds tm
  | .dict es => mainScan f (es.map (fun e => .s e.1)) tm
  | .s s => mainScan f (s.data.map (fun c => .s (String.mk [c]))) tm

/-- The per-field resolution chain of `create_table_schema`
(`src/utils/types.py`, lines 104-132): exact match in the flattened
name-to-type map; then the first entry whose full name ends in
`"." + field_name` (or equals it); then the direct scan of the top-level
schema's own field descriptors; then `Utf8`. -/
def resolveOne (f : String) (aft : List (String × PlType))
    (yamlSchema : List (String × Yaml)) (tm : List (String × PlType)) :
    Except String PlType :=
  match dget aft f with
  | some t => pure t
  | none =>
    match aft.findSome? (fun e =>
        if strEndsWith e.1 ("." ++ f) ∨ e.1 = f then some e.2 else none) with
    | some t => pure t
    | none =>
        match yamlSchema with
        | [] => Except.error "IndexError: list index out of range"
        | (_, mainFields) :: _ => mainLookup f mainFields tm

/-- The `for field_name in field_names` loop of `create_table_schema`
(`src/utils/types.py`, lines 104-132), threading the `table_schema` dict
through as `acc`. -/
def tableLoop (fs : List String) (aft : List (String × PlType))
    (yamlSchema : List (String × Yaml)) (tm : List (String × PlType))
    (acc : List (String × PlType)) : Except String (List (String × PlType)) :=
  match fs with
  | [] => pure acc
  | f :: rest => do
      let t ← resolveOne f aft yamlSchema tm
      tableLoop rest aft yamlSchema tm (dset acc f t)

/-- `create_table_schema` (`src/utils/types.py`, lines 87-134): build the
flattened name-to-type map once, then resolve each requested field
through the chain of `resolveOne`, collecting into the `table_schema`
dict in field order. -/
def create_table_schema (field_names : List String)
    (yamlSchema : List (String × Yaml)) (typesDef : List (String × String)) :
    Except String (List (String × PlType)) := do
  let aft ← extract_field_types yamlSchema typesDef
  tableLoop field_names aft yamlSchema (get_polars_type_mapping typesDef) []

mutual

/-- Well-formedness of a parser schema: a list of dict field descriptors.
This is the shape every real endpoint schema has; `parse_element` can
only raise on schemas violating it. -/
def wfSchema : Yaml → Bool
  | .list fds => wfDefs fds
  | _ => false
termination_by structural y => y

/-- Well-formedness of the field-descriptor list. -/
def wfDefs : List Yaml → Bool
  | [] => true
  | .dict entries :: rest => wfEntries entries && wfDefs rest
  | _ :: _ => false
termination_by structural l => l

/-- Well-formedness of one descriptor dict: nested configs are nonempty
dicts whose first value is again a well-formed schema; scalar configs are
unconstrained. -/
def wfEntries : List (String × Yaml) → Bool
  | [] => true
  | (_, cfg) :: rest => wfCfg cfg && wfEntries rest
termination_by structural l => l

/-- Well-formedness of a single field config: an empty dict (which makes
`list(field_config.keys())[0]` raise) is malformed; a nonempty dict must
carry a well-formed nested schema under its first key; anything else is a
simple field and always fine. -/
def wfCfg : Yaml → Bool
  | .dict [] => false
  | .dict ((_, ns) :: _) => wfSchema ns
  | _ => true
termination_by structural y => y

end

/-- One table specification from `output_schema.tables`
(`src/processors/generic.py`, lines 89-92).  The record fields carry the
defaults applied by `.get`: a missing `source_path` key is the empty
string, missing `fields`/`parent_fields` are empty lists, a missing
`foreign_key` is `None`. -/
structure TableConfig : Type where
  source_path : String
  fields : List String
  foreign_key : Option String
  parent_fields : List String

/-- A materialized table handed to `pl.DataFrame(table_data,
schema=table_schema)`: the column schema together with the row records
(the DataFrame construction itself is the external columnar library). -/
abbrev PTable := List (String × PlType) × List Val

/-- `_transform_data` (`src/processors/generic.py`, lines 72-116): for
each configured table in order, extract (threading the possibly mutated
`raw_data` state), flatten when nonempty, build the table schema, and
pair schema with rows.  There is no exception handler in the loop, so a
raising extraction (or schema construction) aborts the whole
transformation. -/
def transform_data (raw : List (String × Val))
    (tableConfigs : List (String × TableConfig))
    (apiSchema : List (String × Yaml)) (typesDef : List (String × String)) :
    Except String (List (String × Val) × List (String × PTable)) :=
  match tableConfigs with
  | [] => pure (raw, [])
  | (tname, cfg) :: rest => do
      let er ← extract_data_from_path raw cfg.source_path cfg.foreign_key cfg.parent_fields
      let tdata :=
        if er.2.isEmpty then er.2
        else flatten_nested_objects er.2 apiSchema cfg.source_path
      let tschema ← create_table_schema cfg.fields apiSchema typesDef
      let r ← transform_data er.1 rest apiSchema typesDef
      pure (r.1, (tname, (tschema, tdata)) :: r.2)

/-! ## Shared lemmas -/

theorem dget_cons {α : Type} (e : String × α) (es : List (String × α)) (k : String) :
    dget (e :: es) k = if e.1 = k then some e.2 else dget es k := by
  by_cases h : e.1 = k <;> simp [dget, List.find?, h]

theorem dget_nil {α : Type} (k : String) : dget ([] : List (String × α)) k = none := by
  simp [dget, List.find?]

theorem dget_map_set_self {α : Type} (d : List (String × α)) (k : String) (v : α)
    (h : d.any (fun e => e.1 = k) = true) :
    dget (d.map (fun e => if e.1 = k then (k, v) else e)) k = some v := by
  induction d with
  | nil => simp at h
  | cons e es ih =>
      by_cases he : e.1 = k
      · simp [List.map_cons, he, dget_cons]
      · simp only [List.any_cons, Bool.or_eq_true, decide_eq_true_eq] at h
        rcases h with h | h
        · exact absurd h he
        · simp [List.map_cons, he, dget_cons, ih h]

theorem dget_map_set_ne {α : Type} (d : List (String × α)) (k k' : String) (v : α)
    (h : k ≠ k') :
    dget (d.map (fun e => if e.1 = k then (k, v) else e)) k' = dget d k' := by
  induction d with
  | nil => simp
  | cons e es ih =>
      by_cases he : e.1 = k
      · have h2 : ¬ (e.1 = k') := by rw [he]; exact h
        rw [List.map_cons, if_pos he, dget_cons, dget_cons, if_neg h, if_neg h2, ih]
      · rw [List.map_cons, if_neg he, dget_cons, dget_cons]
        by_cases hk' : e.1 = k'
        · rw [if_pos hk', if_pos hk']
        · rw [if_neg hk', if_neg hk', ih]

theorem dget_dset_self {α : Type} (d : List (String × α)) (k : String) (v : α) :
    dget (dset d k v) k = some v := by
  unfold dset
  by_cases h : d.any (fun e => e.1 = k)
  · simp only [h, if_true]
    exact dget_map_set_self d k v h
  · simp only [h, if_false]
    induction d with
    | nil => simp [dget_cons]
    | cons e es ih =>
        simp only [List.any_cons, Bool.or_eq_true, decide_eq_true_eq, not_or] at h
        simp [dget_cons, h.1]
        exact ih (by simp [h.2])

theorem dget_dset_ne {α : Type} (d : List (String × α)) (k k' : String) (v : α)
    (h : k ≠ k') : dget (dset d k v) k' = dget d k' := by
  unfold dset
  by_cases ha : d.any (fun e => e.1 = k)
  · simp only [ha, if_true]
    exact dget_map_set_ne d k k' v h
  · simp only [ha, if_false]
    induction d with
    | nil => simp [dget_cons, dget_nil, h]
    | cons e es ih =>
        simp only [List.any_cons, Bool.or_eq_true, decide_eq_true_eq, not_or] at ha
        by_cases hk' : e.1 = k'
        · simp [dget_cons, hk']
        · simp [dget_cons, hk']
          exact ih (by simp [ha.2])

/-- Package a reduction to `pure` as a success witness. -/
theorem exOk {α : Type} {x : Except String α} {v : α} (h : x = pure v) :
    ∃ r, x = .ok r := ⟨v, h⟩

/-! ## Claim C1 -/

/-- Claim C1, counterexample: `safe_cast` does **not** return the type's
zero value on absent input — it returns Python `None` (modelled as
`Val.vNone`), which is distinct from `0`. -/
theorem C1_counterexample :
    safe_cast none (.s "int") = .vNone ∧
    safe_cast (some "") (.s "int") = .vNone ∧
    Val.vNone ≠ Val.vInt 0 ∧ Val.vNone ≠ Val.vRat 0 ∧
    Val.vNone ≠ Val.vBool false ∧ Val.vNone ≠ Val.vStr "" := by
  decide

/-- Claim C1, amended: for every type tag and input text the typed field
parser `safe_cast` never raises (it is a total function), and when the
input is absent (`None` or the empty string) or the conversion fails
(malformed int or float text) it returns Python `None` — not the type's
zero value. -/
theorem C1_amended (t : Yaml) (v : String) :
    safe_cast none t = .vNone ∧
    safe_cast (some "") t = .vNone ∧
    (pyInt v = none → safe_cast (some v) (.s "int") = .vNone) ∧
    (pyFloat (replaceCommas v) = none → safe_cast (some v) (.s "float") = .vNone) := by
  refine ⟨rfl, by simp [safe_cast], ?_, ?_⟩
  · intro h
    by_cases hv : v = ""
    · simp [safe_cast, hv]
    · simp [safe_cast, hv, h]
  · intro h
    by_cases hv : v = ""
    · simp [safe_cast, hv]
    · simp [safe_cast, hv, h]

/-- Witness for the amended claim C1 at concrete inputs. -/
theorem C1_amended_witness :
    safe_cast none (.s "bool") = .vNone ∧
    safe_cast (some "") (.s "str") = .vNone ∧
    safe_cast (some "abc") (.s "int") = .vNone ∧
    safe_cast (some "x,y") (.s "float") = .vNone :=
  ⟨(C1_amended (.s "bool") "z").1, (C1_amended (.s "str") "z").2.1,
    (C1_amended (.s "int") "abc").2.2.1 (by decide),
    (C1_amended (.s "float") "x,y").2.2.2 (by decide)⟩

/-! ## Claim C6 -/

/-- Claim C6, counterexample: on the claim's exact input — the doubly
wrapped single-object field whose inner value is a plain dict —
`_flatten_record` only removes the outer one-element wrapper list and
keeps the wrapper key `"Country"` mapping to the inner dict, so the
result is not `{"Id": 5, "Name": "X"}`. -/
theorem C6_counterexample :
    flatten_record
      (.vDict [("Country", .vList [.vDict [("Country",
        .vDict [("Id", .vInt 5), ("Name", .vStr "X")])]])])
      [("Country", .list [.dict [("Id", .s "int")]])]
      = .vDict [("Country", .vDict [("Id", .vInt 5), ("Name", .vStr "X")])] ∧
    Val.vDict [("Country", .vDict [("Id", .vInt 5), ("Name", .vStr "X")])] ≠
      Val.vDict [("Id", .vInt 5), ("Name", .vStr "X")] := by
  decide

/-- Claim C6, amended: flattening undoes the structural parser's wrapping
exactly when both wrap levels are one-element lists, as the parser
produces them: `{"Country": [{"Country": [{"Id": i, "Name": s}]}]}`
flattens to `{"Id": i, "Name": s}` with no residual wrapper key, for any
schema definition whose first list value is nonempty.  (With the inner
value a plain dict, as literally stated in the claim, the wrapper key
survives — see the counterexample.) -/
theorem C6_amended (name : String) (i : Int) (s : String)
    (schemaDef : List (String × Yaml)) (fd0 : Yaml) (fds0 : List Yaml)
    (hs : schemaDef.findSome? (fun e =>
      match e.2 with
      | .list l => some l
      | _ => none) = some (fd0 :: fds0)) :
    flatten_record
      (.vDict [(name, .vList [.vDict [(name,
        .vList [.vDict [("Id", .vInt i), ("Name", .vStr s)]])]])])
      schemaDef = .vDict [("Id", .vInt i), ("Name", .vStr s)] := by
  simp [flatten_record, hs, flattenField, dset]

/-- Witness for the amended claim C6 at the spec's concrete example. -/
theorem C6_amended_witness :
    flatten_record
      (.vDict [("Country", .vList [.vDict [("Country",
        .vList [.vDict [("Id", .vInt 5), ("Name", .vStr "X")]])]])])
      [("Country", .list [.dict [("Id", .s "int")]])]
      = .vDict [("Id", .vInt 5), ("Name", .vStr "X")] :=
  C6_amended "Country" 5 "X" [("Country", .list [.dict [("Id", .s "int")]])]
    (.dict [("Id", .s "int")]) [] (by decide)

/-! ## Claim C9 -/

/-- Claim C9, counterexample: extraction **does** modify its input.  With
`source_path = "League.Cups"` and `foreign_key = "LeagueID"`, the foreign
key is written in place into the child dicts inside the input mapping, so
the post-state of the mapping differs from the input. -/
theorem C9_counterexample :
    extract_data_from_path
      [("League", .vList [.vDict [("LeagueID", .vInt 1),
        ("Cups", .vList [.vDict [("CupID", .vInt 10)]])]])]
      "League.Cups" (some "LeagueID") []
      = .ok ([("League", .vList [.vDict [("LeagueID", .vInt 1),
          ("Cups", .vList [.vDict [("CupID", .vInt 10), ("LeagueID", .vInt 1)]])]])],
          [.vDict [("CupID", .vInt 10), ("LeagueID", .vInt 1)]]) ∧
    ([("League", .vList [.vDict [("LeagueID", .vInt 1),
        ("Cups", .vList [.vDict [("CupID", .vInt 10), ("LeagueID", .vInt 1)]])]])] :
      List (String × Val)) ≠
      [("League", .vList [.vDict [("LeagueID", .vInt 1),
        ("Cups", .vList [.vDict [("CupID", .vInt 10)]])]])] := by
  decide

/-- Reduction of `singleSegment` when the key is absent. -/
theorem singleSegment_none (raw : List (String × Val)) (sp : String)
    (pf : List String) (hd : dget raw sp = none) :
    singleSegment raw sp pf = pure (raw, []) := by
  unfold singleSegment
  rw [hd]

/-- Reduction of `singleSegment` when the stored value is not a list. -/
theorem singleSegment_not_list (raw : List (String × Val)) (sp : String)
    (pf : List String) (v : Val) (hd : dget raw sp = some v)
    (hv : ∀ xs, v ≠ .vList xs) :
    singleSegment raw sp pf = pure (raw, []) := by
  unfold singleSegment
  rw [hd]
  cases v with
  | vList xs => exact absurd rfl (hv xs)
  | vNone => rfl
  | vInt n => rfl
  | vRat q => rfl
  | vBool b => rfl
  | vStr t => rfl
  | vDict d => rfl

/-- Reduction of `singleSegment` when the stored value is a list. -/
theorem singleSegment_list (raw : List (String × Val)) (sp : String)
    (pf : List String) (xs : List Val) (hd : dget raw sp = some (.vList xs)) :
    singleSegment raw sp pf =
      (if pf.isEmpty then pure (raw, xs)
      else do
        let recs ← xs.mapM (copyInject raw pf)
        pure (raw, recs)) := by
  unfold singleSegment
  rw [hd]

/-- Inversion of the single-segment branch of extraction: it never
modifies the mapping, and without `parent_fields` it returns the stored
list itself. -/
theorem singleSegment_ok (raw : List (String × Val)) (sp : String)
    (pf : List String) (r : List (String × Val)) (recs : List Val)
    (h : singleSegment raw sp pf = .ok (r, recs)) :
    r = raw ∧ (pf = [] → ∀ xs, dget raw sp = some (.vList xs) → recs = xs) := by
  rcases hd : dget raw sp with _ | v
  · rw [singleSegment_none raw sp pf hd] at h
    simp [pure, Except.pure] at h
    exact ⟨h.1.symm, fun _ xs hxs => by simp at hxs⟩
  · cases v with
    | vList xs =>
        rw [singleSegment_list raw sp pf xs hd] at h
        by_cases hpf : pf = []
        · subst hpf
          simp [pure, Except.pure] at h
          refine ⟨h.1.symm, fun _ xs' hxs' => ?_⟩
          simp at hxs'
          rw [← hxs']
          exact h.2.symm
        · have hpf2 : ¬ (pf.isEmpty = true) := by simpa using hpf
          rw [if_neg hpf2] at h
          rcases hm : xs.mapM (copyInject raw pf) with e | recs'
          · rw [hm] at h
            simp [Bind.bind, Except.bind] at h
          · rw [hm] at h
            simp [Bind.bind, Except.bind, pure, Except.pure] at h
            exact ⟨h.1.symm, fun hpf' => absurd hpf' hpf⟩
    | vNone =>
        rw [singleSegment_not_list raw sp pf _ hd (by intro xs hc; cases hc)] at h
        simp [pure, Except.pure] at h
        exact ⟨h.1.symm, fun _ xs hxs => by simp at hxs⟩
    | vInt n =>
        rw [singleSegment_not_list raw sp pf _ hd (by intro xs hc; cases hc)] at h
        simp [pure, Except.pure] at h
        exact ⟨h.1.symm, fun _ xs hxs => by simp at hxs⟩
    | vRat q =>
        rw [singleSegment_not_list raw sp pf _ hd (by intro xs hc; cases hc)] at h
        simp [pure, Except.pure] at h
        exact ⟨h.1.symm, fun _ xs hxs => by simp at hxs⟩
    | vBool b =>
        rw [singleSegment_not_list raw sp pf _ hd (by intro xs hc; cases hc)] at h
        simp [pure, Except.pure] at h
        exact ⟨h.1.symm, fun _ xs hxs => by simp at hxs⟩
    | vStr t =>
        rw [singleSegment_not_list raw sp pf _ hd (by intro xs hc; cases hc)] at h
        simp [pure, Except.pure] at h
        exact ⟨h.1.symm, fun _ xs hxs => by simp at hxs⟩
    | vDict d =>
        rw [singleSegment_not_list raw sp pf _ hd (by intro xs hc; cases hc)] at h
        simp [pure, Except.pure] at h
        exact ⟨h.1.symm, fun _ xs hxs => by simp at hxs⟩

/-- Claim C9, amended: only single-segment extraction is guaranteed not to
modify the input mapping (and without `parent_fields` its returned rows
are exactly the list object stored in the input, i.e. aliased, not newly
allocated); multi-segment extraction with a foreign key mutates the input
in place, as the counterexample shows. -/
theorem C9_amended (raw : List (String × Val)) (sp : String) (fk : Option String)
    (pf : List String) (r : List (String × Val)) (recs : List Val)
    (hsp : (splitOnChar '.' sp.data).length ≤ 1)
    (h : extract_data_from_path raw sp fk pf = .ok (r, recs)) :
    r = raw ∧
    (pf = [] → sp ≠ "" → ∀ xs, dget raw sp = some (.vList xs) → recs = xs) := by
  by_cases hempty : sp = ""
  · subst hempty
    unfold extract_data_from_path at h
    rw [if_pos rfl] at h
    simp [pure, Except.pure] at h
    exact ⟨h.1.symm, fun _ hne => absurd rfl hne⟩
  · unfold extract_data_from_path at h
    rw [if_neg hempty] at h
    rcases hsplit : splitOnChar '.' sp.data with _ | ⟨a, _ | ⟨b, rest⟩⟩
    · rw [hsplit] at h
      have := singleSegment_ok raw sp pf r recs h
      exact ⟨this.1, fun h1 _ => this.2 h1⟩
    · rw [hsplit] at h
      have := singleSegment_ok raw sp pf r recs h
      exact ⟨this.1, fun h1 _ => this.2 h1⟩
    · rw [hsplit] at hsp
      simp at hsp

/-- Witness for the amended claim C9 at concrete inputs: a one-segment
path leaves the input unchanged and returns the stored list itself. -/
theorem C9_amended_witness :
    (splitOnChar '.' ("L" : String).data).length ≤ 1
    ∧ extract_data_from_path [("L", Val.vList [Val.vInt 1])] "L" (some "F") []
        = .ok ([("L", Val.vList [Val.vInt 1])], [Val.vInt 1])
    ∧ (([("L", Val.vList [Val.vInt 1])] : List (String × Val))
        = [("L", Val.vList [Val.vInt 1])]
      ∧ (([] : List String) = [] → ("L" : String) ≠ "" → ∀ xs,
          dget [("L", Val.vList [Val.vInt 1])] "L" = some (.vList xs) →
          [Val.vInt 1] = xs)) :=
  ⟨by decide, by decide,
   C9_amended [("L", Val.vList [Val.vInt 1])] "L" (some "F") []
     [("L", Val.vList [Val.vInt 1])] [Val.vInt 1] (by decide) (by decide)⟩

/-! ## Claim C10 -/

/-- Claim C10: extraction with an empty `source_path` (the value `.get`
defaults to when the key is missing from the table spec) returns the
empty record list without raising, for every mapping and every
`foreign_key`/`parent_fields` setting, and the table then materializes as
an empty table carrying the full computed column schema. -/
theorem C10_empty_source_path (raw : List (String × Val)) (fk : Option String)
    (pf : List String) (n : String) (fields : List String)
    (api : List (String × Yaml)) (types : List (String × String))
    (s : List (String × PlType))
    (hs : create_table_schema fields api types = .ok s) :
    extract_data_from_path raw "" fk pf = .ok (raw, []) ∧
    transform_data raw [(n, ⟨"", fields, fk, pf⟩)] api types
      = .ok (raw, [(n, (s, []))]) := by
  constructor
  · simp [extract_data_from_path, pure, Except.pure]
  · rw [transform_data]
    simp [extract_data_from_path, Bind.bind, Except.bind, hs, transform_data,
      pure, Except.pure]

/-- Witness for claim C10 at concrete inputs. -/
theorem C10_empty_source_path_witness :
    extract_data_from_path [("K", Val.vInt 3)] "" (some "F") ["P"] =
      .ok ([("K", Val.vInt 3)], []) ∧
    transform_data [("K", Val.vInt 3)] [("t", ⟨"", ["A"], some "F", ["P"]⟩)]
      [("HattrickData", .list [.dict [("A", .s "int")]])] [("int", "Int64")]
      = .ok ([("K", Val.vInt 3)], [("t", ([("A", .int64)], []))]) :=
  C10_empty_source_path [("K", Val.vInt 3)] (some "F") ["P"] "t" ["A"]
    [("HattrickData", .list [.dict [("A", .s "int")]])] [("int", "Int64")]
    [("A", .int64)] (by decide)

/-! ## Claim C3 -/

/-- A field name with no leading `@` is unchanged by `lstrip('@')`. -/
theorem stripAts_of_not_at (name : String) (h : startsWithAt name = false) :
    stripAts name = name := by
  have hmk : String.mk name.data = name := by cases name; rfl
  unfold stripAts
  cases hd : name.data with
  | nil =>
      rw [hd] at hmk
      rw [← hmk]
      rfl
  | cons c cs =>
      have hat : ¬ ('@' = c) := by
        unfold startsWithAt at h
        rw [hd] at h
        simpa [chPfx] using h
      have hcd : decide (c = '@') = false :=
        decide_eq_false (fun hcc => hat hcc.symm)
      rw [hd] at hmk
      rw [List.dropWhile_cons, hcd]
      simp only [Bool.false_eq_true, if_false]
      rw [← hmk]

/-- Claim C3, counterexample: for a scalar element descriptor with more
than one matching child, `parse_element` stores only the first child's
parsed text (it uses `element.find`), never a list of all matches. -/
theorem C3_counterexample :
    parse_element (.mk "r" [] none [.mk "X" [] (some "1") [], .mk "X" [] (some "2") []])
      (.list [.dict [("X", .s "int")]]) = .ok [("X", .vInt 1)] ∧
    Val.vInt 1 ≠ Val.vList [.vInt 1, .vInt 2] := by
  constructor
  · simp only [parse_element, parseDefs, parseEntries, parseOneField, findall,
      findEl, XmlElement.children, XmlElement.tag, XmlElement.text,
      List.filter, List.find?]
    decide
  · decide

/-- Claim C3, amended: for a scalar element descriptor `name: type` (with
`name` not an attribute reference), the parsed mapping stores
`safe_cast` of the **first** matching child's text: zero children give
`None` (via `safe_cast` of an absent value, not the type's zero
default), and one or more children give the first child's parsed scalar —
never a list. -/
theorem C3_amended (el : XmlElement) (name : String) (t : String)
    (h : startsWithAt name = false) :
    parse_element el (.list [.dict [(name, .s t)]])
      = .ok [(name, safe_cast ((findEl el name).bind XmlElement.text) (.s t))] := by
  have hstrip := stripAts_of_not_at name h
  rcases hf : findEl el name with _ | child
  · simp only [parse_element, parseDefs, parseEntries, parseOneField, h,
      Bool.false_eq_true, if_false, hf, hstrip, Bind.bind, Except.bind,
      pure, Except.pure, Option.bind, dset, List.any_nil, List.map_nil,
      List.nil_append]
  · simp only [parse_element, parseDefs, parseEntries, parseOneField, h,
      Bool.false_eq_true, if_false, hf, hstrip, Bind.bind, Except.bind,
      pure, Except.pure, Option.bind, dset, List.any_nil, List.map_nil,
      List.nil_append]

/-- Witness for the amended claim C3: an element with two `X` children
parses the scalar field `X` to the first child's value. -/
theorem C3_amended_witness :
    parse_element (.mk "r" [] none [.mk "X" [] (some "7") [], .mk "X" [] (some "9") []])
      (.list [.dict [("X", .s "int")]])
      = .ok [("X", safe_cast ((findEl
          (.mk "r" [] none [.mk "X" [] (some "7") [], .mk "X" [] (some "9") []])
          "X").bind XmlElement.text) (.s "int"))] :=
  C3_amended (.mk "r" [] none [.mk "X" [] (some "7") [], .mk "X" [] (some "9") []])
    "X" "int" (by decide)

/-! ## Claim C7 -/

/-- Reduction of `injectList` on a dict child when the foreign key is
present on the parent. -/
theorem injectList_cons_dict (xd : List (String × Val)) (rest : List Val)
    (d : List (String × Val)) (k : String) (v : Val) (hk : dget d k = some v) :
    injectList (.vDict xd :: rest) d (some k) =
      (do
        let r ← injectList rest d (some k)
        pure (Val.vDict (dset xd k v) :: r.1, Val.vDict (dset xd k v) :: r.2)) := by
  have hf : fkValue d (some k) = some (k, v) := by
    unfold fkValue
    show (match dget d k with
      | some v => some (k, v)
      | none => none) = some (k, v)
    rw [hk]
  conv_lhs => rw [injectList]
  rw [hf]
  rfl

/-- Reduction of `injectList` on a non-dict child when the foreign key is
present on the parent: the item assignment raises `TypeError`. -/
theorem injectList_cons_bad (x : Val) (rest : List Val)
    (d : List (String × Val)) (k : String) (v : Val) (hk : dget d k = some v)
    (hx : ∀ xd, x ≠ .vDict xd) :
    injectList (x :: rest) d (some k) =
      .error "TypeError: item assignment on non-dict" := by
  have hf : fkValue d (some k) = some (k, v) := by
    unfold fkValue
    show (match dget d k with
      | some v => some (k, v)
      | none => none) = some (k, v)
    rw [hk]
  conv_lhs => rw [injectList]
  rw [hf]
  cases x with
  | vDict xd => exact absurd rfl (hx xd)
  | vNone => rfl
  | vInt n => rfl
  | vRat q => rfl
  | vBool b => rfl
  | vStr s => rfl
  | vList l => rfl

/-- The foreign-key injection over a list-valued child collection: every
emitted record from a parent containing the key carries the key. -/
theorem injectList_fk (xs : List Val) (d : List (String × Val)) (k : String)
    (v : Val) (hk : dget d k = some v) :
    ∀ xs' recs, injectList xs d (some k) = .ok (xs', recs) →
      ∀ r ∈ recs, ∃ rd, r = .vDict rd ∧ dget rd k = some v := by
  induction xs with
  | nil =>
      intro xs' recs h r hr
      unfold injectList at h
      simp [pure, Except.pure] at h
      obtain ⟨h1, h2⟩ := h
      subst h2
      cases hr
  | cons x rest ih =>
      intro xs' recs h r hr
      cases x with
      | vDict xd =>
          rw [injectList_cons_dict xd rest d k v hk] at h
          rcases hrest : injectList rest d (some k) with e | pr
          · rw [hrest] at h
            simp [Bind.bind, Except.bind] at h
          · rw [hrest] at h
            simp [Bind.bind, Except.bind, pure, Except.pure] at h
            obtain ⟨hh1, hh2⟩ := h
            subst hh2
            rcases List.mem_cons.mp hr with h1 | h1
            · exact ⟨dset xd k v, h1, dget_dset_self xd k v⟩
            · exact ih pr.1 pr.2 (by rw [hrest]) r h1
      | vNone =>
          rw [injectList_cons_bad _ rest d k v hk (by intro xd hc; cases hc)] at h
          cases h
      | vInt n =>
          rw [injectList_cons_bad _ rest d k v hk (by intro xd hc; cases hc)] at h
          cases h
      | vRat q =>
          rw [injectList_cons_bad _ rest d k v hk (by intro xd hc; cases hc)] at h
          cases h
      | vBool b =>
          rw [injectList_cons_bad _ rest d k v hk (by intro xd hc; cases hc)] at h
          cases h
      | vStr s =>
          rw [injectList_cons_bad _ rest d k v hk (by intro xd hc; cases hc)] at h
          cases h
      | vList l =>
          rw [injectList_cons_bad _ rest d k v hk (by intro xd hc; cases hc)] at h
          cases h

/-- Reduction of `extractFromParent` when the last path segment is
missing from the parent. -/
theorem extractFromParent_none (d : List (String × Val)) (last : String)
    (fk : Option String) (hd : dget d last = none) :
    extractFromParent (.vDict d) last fk = pure (.vDict d, []) := by
  show extractFromParentDict d last fk = _
  unfold extractFromParentDict
  rw [hd]

/-- Reduction of `extractFromParent` on a list-valued child collection. -/
theorem extractFromParent_list (d : List (String × Val)) (last : String)
    (fk : Option String) (xs : List Val)
    (hd : dget d last = some (.vList xs)) :
    extractFromParent (.vDict d) last fk =
      (do
        let r ← injectList xs d fk
        pure (.vDict (dset d last (.vList r.1)), r.2)) := by
  show extractFromParentDict d last fk = _
  unfold extractFromParentDict
  rw [hd]

/-- Reduction of `extractFromParent` on a single-dict child when the
foreign key is present: the child is copied and the key added. -/
theorem extractFromParent_dict (d : List (String × Val)) (last : String)
    (k : String) (v : Val) (nd : List (String × Val))
    (hd : dget d last = some (.vDict nd)) (hk : dget d k = some v) :
    extractFromParent (.vDict d) last (some k) =
      pure (.vDict d, [.vDict (dset nd k v)]) := by
  show extractFromParentDict d last (some k) = _
  unfold extractFromParentDict
  rw [hd]
  show (match dget d k with
    | some v => (pure (Val.vDict d, [Val.vDict (dset nd k v)]) : Except String (Val × List Val))
    | none => pure (Val.vDict d, [Val.vDict nd])) = _
  rw [hk]

/-- Reduction of `extractFromParent` on a scalar (neither list nor dict)
child value: nothing is emitted. -/
theorem extractFromParent_scalar (d : List (String × Val)) (last : String)
    (fk : Option String) (v : Val) (hd : dget d last = some v)
    (hv1 : ∀ xs, v ≠ .vList xs) (hv2 : ∀ nd, v ≠ .vDict nd) :
    extractFromParent (.vDict d) last fk = pure (.vDict d, []) := by
  show extractFromParentDict d last fk = _
  unfold extractFromParentDict
  rw [hd]
  cases v with
  | vList xs => exact absurd rfl (hv1 xs)
  | vDict nd => exact absurd rfl (hv2 nd)
  | vNone => rfl
  | vInt n => rfl
  | vRat q => rfl
  | vBool b => rfl
  | vStr s => rfl

/-- Claim C7: when `foreign_key` is set and present on a parent record,
its value is copied onto every child row emitted from that parent under
the same key (for list-valued and single-dict child collections alike);
and on the spec's concrete example the extracted rows equal
`[{"CupID": 10, "LeagueID": 1}]`. -/
theorem C7_foreign_key (d : List (String × Val)) (last : String) (k : String)
    (v : Val) (pr : Val) (rows : List Val)
    (hk : dget d k = some v)
    (h : extractFromParent (.vDict d) last (some k) = .ok (pr, rows)) :
    (∀ r ∈ rows, ∃ rd, r = .vDict rd ∧ dget rd k = some v) ∧
    extract_data_from_path
      [("League", .vList [.vDict [("LeagueID", .vInt 1),
        ("Cups", .vList [.vDict [("CupID", .vInt 10)]])]])]
      "League.Cups" (some "LeagueID") []
      = .ok ([("League", .vList [.vDict [("LeagueID", .vInt 1),
          ("Cups", .vList [.vDict [("CupID", .vInt 10), ("LeagueID", .vInt 1)]])]])],
          [.vDict [("CupID", .vInt 10), ("LeagueID", .vInt 1)]]) := by
  refine ⟨?_, by decide⟩
  intro r hr
  rcases hd : dget d last with _ | nd
  · rw [extractFromParent_none d last (some k) hd] at h
    simp [pure, Except.pure] at h
    obtain ⟨h1, h2⟩ := h
    subst h2
    cases hr
  · cases nd with
    | vList xs =>
        rw [extractFromParent_list d last (some k) xs hd] at h
        rcases hi : injectList xs d (some k) with e | pr2
        · rw [hi] at h
          simp [Bind.bind, Except.bind] at h
        · rw [hi] at h
          simp [Bind.bind, Except.bind, pure, Except.pure] at h
          obtain ⟨h1, h2⟩ := h
          subst h2
          exact injectList_fk xs d k v hk pr2.1 pr2.2 (by rw [hi]) r hr
    | vDict nd2 =>
        rw [extractFromParent_dict d last k v nd2 hd hk] at h
        simp [pure, Except.pure] at h
        obtain ⟨h1, h2⟩ := h
        subst h2
        rcases List.mem_cons.mp hr with h1 | h1
        · exact ⟨dset nd2 k v, h1, dget_dset_self nd2 k v⟩
        · cases h1
    | vNone =>
        rw [extractFromParent_scalar d last (some k) _ hd
          (by intro xs hc; cases hc) (by intro nd hc; cases hc)] at h
        simp [pure, Except.pure] at h
        obtain ⟨h1, h2⟩ := h
        subst h2
        cases hr
    | vInt n =>
        rw [extractFromParent_scalar d last (some k) _ hd
          (by intro xs hc; cases hc) (by intro nd hc; cases hc)] at h
        simp [pure, Except.pure] at h
        obtain ⟨h1, h2⟩ := h
        subst h2
        cases hr
    | vRat q =>
        rw [extractFromParent_scalar d last (some k) _ hd
          (by intro xs hc; cases hc) (by intro nd hc; cases hc)] at h
        simp [pure, Except.pure] at h
        obtain ⟨h1, h2⟩ := h
        subst h2
        cases hr
    | vBool b =>
        rw [extractFromParent_scalar d last (some k) _ hd
          (by intro xs hc; cases hc) (by intro nd hc; cases hc)] at h
        simp [pure, Except.pure] at h
        obtain ⟨h1, h2⟩ := h
        subst h2
        cases hr
    | vStr s =>
        rw [extractFromParent_scalar d last (some k) _ hd
          (by intro xs hc; cases hc) (by intro nd hc; cases hc)] at h
        simp [pure, Except.pure] at h
        obtain ⟨h1, h2⟩ := h
        subst h2
        cases hr

/-- Witness for claim C7 at the spec's concrete parent record. -/
theorem C7_foreign_key_witness :
    ∃ rd, (Val.vDict [("CupID", .vInt 10), ("LeagueID", .vInt 1)]) = .vDict rd ∧
      dget rd "LeagueID" = some (.vInt 1) := by
  have h := C7_foreign_key
    [("LeagueID", .vInt 1), ("Cups", .vList [.vDict [("CupID", .vInt 10)]])]
    "Cups" "LeagueID" (.vInt 1)
    (.vDict [("LeagueID", .vInt 1),
      ("Cups", .vList [.vDict [("CupID", .vInt 10), ("LeagueID", .vInt 1)]])])
    [.vDict [("CupID", .vInt 10), ("LeagueID", .vInt 1)]]
    (by decide) (by decide)
  exact h.1 _ (by simp)

/-! ## Claim C2 -/

/-- Claim C2, counterexample: with two configured tables, a second table
whose `source_path` navigates through a non-mapping value (here the `[]`
default left by a missing key, hit by a three-segment path) raises
`AttributeError` and aborts the whole transformation — including the
sibling table that, run alone, produces its rows fine. -/
theorem C2_counterexample :
    transform_data [("T", .vList [.vDict [("A", .vInt 1)]])]
      [("good", ⟨"T", ["A"], none, []⟩), ("bad", ⟨"X.Y.Z", [], none, []⟩)]
      [("HattrickData", .list [.dict [("A", .s "int")]])] [("int", "Int64")]
      = .error "AttributeError: parent_data has no attribute get" ∧
    transform_data [("T", .vList [.vDict [("A", .vInt 1)]])]
      [("good", ⟨"T", ["A"], none, []⟩)]
      [("HattrickData", .list [.dict [("A", .s "int")]])] [("int", "Int64")]
      = .ok ([("T", .vList [.vDict [("A", .vInt 1)]])],
             [("good", ([("A", .int64)], [.vDict [("A", .vInt 1)]]))]) := by
  decide

/-- Reduction of extraction for a two-segment path whose first segment is
missing from the mapping: no error, no mutation, no records. -/
theorem extract_two_missing (raw : List (String × Val)) (sp : String)
    (ad bd : List Char) (fk : Option String) (pf : List String)
    (hne : sp ≠ "") (hsplit : splitOnChar '.' sp.data = [ad, bd])
    (hmiss : dget raw (String.mk ad) = none) :
    extract_data_from_path raw sp fk pf = .ok (raw, []) := by
  unfold extract_data_from_path
  rw [if_neg hne, hsplit]
  show (match dget raw (String.mk ad) with
    | some sub => do
        let r ← navInner sub (([bd] : List (List Char)).dropLast.map String.mk)
          (String.mk (([bd] : List (List Char)).getLastD [])) fk
        pure (dset raw (String.mk ad) r.1, r.2)
    | none => do
        let r ← navInner (.vList []) (([bd] : List (List Char)).dropLast.map String.mk)
          (String.mk (([bd] : List (List Char)).getLastD [])) fk
        pure (raw, r.2)) = .ok (raw, [])
  rw [hmiss]
  rfl

/-- Claim C2, amended: a table whose `source_path` merely points nowhere
(a two-segment path whose first segment is absent from the mapping)
yields an empty row set for that table only, and the other table's
output is unchanged; but a `source_path` that navigates *through* a
non-mapping value raises and aborts the entire transformation, producing
no tables at all — see the counterexample. -/
theorem C2_amended (raw raw1 : List (String × Val)) (gn : String)
    (gcfg : TableConfig) (api : List (String × Yaml))
    (types : List (String × String)) (gout : List (String × PTable))
    (bn : String) (bfields : List String) (bfk : Option String)
    (bpf : List String) (bs : List (String × PlType)) (sp : String)
    (ad bd : List Char)
    (hne : sp ≠ "")
    (hsplit : splitOnChar '.' sp.data = [ad, bd])
    (hg : transform_data raw [(gn, gcfg)] api types = .ok (raw1, gout))
    (hmiss : dget raw1 (String.mk ad) = none)
    (hbs : create_table_schema bfields api types = .ok bs) :
    transform_data raw [(gn, gcfg), (bn, ⟨sp, bfields, bfk, bpf⟩)] api types
      = .ok (raw1, gout ++ [(bn, (bs, []))]) := by
  simp only [transform_data] at hg
  rcases he : extract_data_from_path raw gcfg.source_path gcfg.foreign_key
      gcfg.parent_fields with e | er
  · rw [he] at hg
    simp [Bind.bind, Except.bind] at hg
  · rw [he] at hg
    rcases hts : create_table_schema gcfg.fields api types with e | ts
    · rw [hts] at hg
      simp [Bind.bind, Except.bind] at hg
    · rw [hts] at hg
      simp only [Bind.bind, Except.bind, pure, Except.pure, Except.ok.injEq,
        Prod.mk.injEq] at hg
      obtain ⟨h1, h2⟩ := hg
      simp only [transform_data]
      rw [he]
      simp only [Bind.bind, Except.bind]
      rw [hts]
      rw [h1, extract_two_missing raw1 sp ad bd bfk bpf hne hsplit hmiss]
      rw [hbs]
      simp only [pure, Except.pure, Except.ok.injEq, Prod.mk.injEq]
      rw [← h2]
      simp

/-- Witness for the amended claim C2 at a concrete two-table output
schema whose second table points at a missing key. -/
theorem C2_amended_witness :
    transform_data [("T", .vList [.vDict [("A", .vInt 1)]])]
      [("good", ⟨"T", ["A"], none, []⟩), ("bad", ⟨"B.C", ["A"], none, []⟩)]
      [("HattrickData", .list [.dict [("A", .s "int")]])] [("int", "Int64")]
      = .ok ([("T", .vList [.vDict [("A", .vInt 1)]])],
             [("good", ([("A", .int64)], [.vDict [("A", .vInt 1)]])),
              ("bad", ([("A", .int64)], []))]) := by
  have h := C2_amended [("T", .vList [.vDict [("A", .vInt 1)]])]
    [("T", .vList [.vDict [("A", .vInt 1)]])] "good" ⟨"T", ["A"], none, []⟩
    [("HattrickData", .list [.dict [("A", .s "int")]])] [("int", "Int64")]
    [("good", ([("A", .int64)], [.vDict [("A", .vInt 1)]]))]
    "bad" ["A"] none [] [("A", .int64)] "B.C" ['B'] ['C']
    (by decide) (by decide) (by decide) (by decide) (by decide)
  exact h

/-! ## Claim C4 -/

/-- `parseChildren` is the in-order effectful map of `parse_element` over
the child list, wrapping each parsed dict. -/
theorem parseChildren_mapM (els : List XmlElement) (schema : Yaml) :
    ∀ vs, parseChildren els schema = .ok vs →
      ∃ ds, els.mapM (fun c => parse_element c schema) = .ok ds ∧
        vs = ds.map Val.vDict := by
  induction els with
  | nil =>
      intro vs h
      simp only [parseChildren] at h
      simp [pure, Except.pure] at h
      subst h
      exact ⟨[], rfl, rfl⟩
  | cons c cs ih =>
      intro vs h
      simp only [parseChildren] at h
      rcases hpe : parse_element c schema with e | d
      · rw [hpe] at h
        simp [Bind.bind, Except.bind] at h
      · rw [hpe] at h
        rcases hpc : parseChildren cs schema with e | rest
        · rw [hpc] at h
          simp [Bind.bind, Except.bind] at h
        · rw [hpc] at h
          simp [Bind.bind, Except.bind, pure, Except.pure] at h
          obtain ⟨ds, hds, hmap⟩ := ih rest hpc
          refine ⟨d :: ds, ?_, ?_⟩
          · rw [List.mapM_cons, hpe, hds]
            rfl
          · rw [← h, hmap]
            simp

/-- Reduction of `parseOneField` on a nested field config with no
matching children. -/
theorem parseOneField_zero (el : XmlElement) (name ntype : String)
    (nsch : Yaml) (restCfg : List (String × Yaml)) (acc : List (String × Val))
    (hfa : findall el name = []) :
    parseOneField el name (.dict ((ntype, nsch) :: restCfg)) acc
      = pure (dset acc name (.vList [])) := by
  simp only [parseOneField]
  split
  · rfl
  · rename_i child heq
    rw [hfa] at heq
    cases heq
  · rename_i c1 c2 cs heq
    rw [hfa] at heq
    cases heq

/-- Reduction of `parseOneField` on a nested field config with exactly
one matching child. -/
theorem parseOneField_one (el : XmlElement) (name ntype : String)
    (nsch : Yaml) (restCfg : List (String × Yaml)) (acc : List (String × Val))
    (child : XmlElement) (hfa : findall el name = [child]) :
    parseOneField el name (.dict ((ntype, nsch) :: restCfg)) acc =
      (match findall child ntype with
       | [] => do
           let d ← parse_element child nsch
           pure (dset acc name (.vList [.vDict d]))
       | nc :: ncs => do
           let vs ← parseChildren (nc :: ncs) nsch
           pure (dset acc name (.vList vs))) := by
  simp only [parseOneField]
  split
  · rename_i heq
    rw [hfa] at heq
    cases heq
  · rename_i child' heq
    rw [hfa] at heq
    injection heq with h1 h2
    subst h1
    split
    · rename_i hna
      rw [hna]
    · rename_i nc ncs hna
      rw [hna]
  · rename_i c1 c2 cs heq
    rw [hfa] at heq
    cases heq

/-- Reduction of `parseOneField` on a nested field config with two or
more matching children. -/
theorem parseOneField_multi (el : XmlElement) (name ntype : String)
    (nsch : Yaml) (restCfg : List (String × Yaml)) (acc : List (String × Val))
    (c1 c2 : XmlElement) (cs : List XmlElement)
    (hfa : findall el name = c1 :: c2 :: cs) :
    parseOneField el name (.dict ((ntype, nsch) :: restCfg)) acc =
      (do
        let vs ← parseChildren (c1 :: c2 :: cs) nsch
        pure (dset acc name (.vList vs))) := by
  simp only [parseOneField]
  split
  · rename_i heq
    rw [hfa] at heq
    cases heq
  · rename_i child heq
    rw [hfa] at heq
    injection heq with h1 h2
    cases h2
  · rename_i d1 d2 ds heq
    rw [hfa] at heq
    injection heq with h1 h2
    injection h2 with h3 h4
    subst h1
    subst h3
    subst h4
    rfl

/-- Claim C4: for a nested descriptor `name: {type_name: [...]}`, a
successful parse always stores a **list** under `name`, never a bare
object: zero matching children give the empty list; two or more matching
children give one recursively parsed entry per child in document order;
a single matching child containing children named `type_name` gives the
in-order parses of those children; a single matching child without such
children gives a one-element list wrapping its own recursive parse. -/
theorem C4_nested_always_list (el : XmlElement) (name ntype : String)
    (nsch : Yaml) (restCfg : List (String × Yaml)) (res : List (String × Val))
    (h : parse_element el (.list [.dict [(name, .dict ((ntype, nsch) :: restCfg))]])
      = .ok res) :
    ∃ vs : List Val, res = [(name, .vList vs)] ∧
      (findall el name = [] → vs = []) ∧
      (∀ c cs, findall el name = c :: cs → cs ≠ [] →
        ∃ ds, (c :: cs).mapM (fun x => parse_element x nsch) = .ok ds ∧
          vs = ds.map Val.vDict) ∧
      (∀ c, findall el name = [c] →
        (findall c ntype ≠ [] →
          ∃ ds, (findall c ntype).mapM (fun x => parse_element x nsch) = .ok ds ∧
            vs = ds.map Val.vDict) ∧
        (findall c ntype = [] →
          ∃ d, parse_element c nsch = .ok d ∧ vs = [.vDict d])) := by
  simp only [parse_element, parseDefs, parseEntries] at h
  rcases hof : parseOneField el name (.dict ((ntype, nsch) :: restCfg)) []
    with e | acc
  · rw [hof] at h
    simp [Bind.bind, Except.bind] at h
  · rw [hof] at h
    simp only [Bind.bind, Except.bind, pure, Except.pure, Except.ok.injEq] at h
    subst h
    simp only [parseOneField] at hof
    split at hof
    · -- zero matching children
      rename_i heq
      simp only [pure, Except.pure, Except.ok.injEq] at hof
      refine ⟨[], by rw [← hof]; rfl, fun _ => rfl, ?_, ?_⟩
      · intro c cs hcs
        rw [heq] at hcs
        cases hcs
      · intro c hc
        rw [heq] at hc
        cases hc
    · -- exactly one matching child
      rename_i child heq
      split at hof
      · -- no children named ntype inside
        rename_i hna
        rcases hpe : parse_element child nsch with e | d
        · rw [hpe] at hof
          simp [Bind.bind, Except.bind] at hof
        · rw [hpe] at hof
          simp only [Bind.bind, Except.bind, pure, Except.pure,
            Except.ok.injEq] at hof
          refine ⟨[.vDict d], by rw [← hof]; rfl, ?_, ?_, ?_⟩
          · intro hz
            rw [heq] at hz
            cases hz
          · intro c cs hcs hne
            rw [heq] at hcs
            injection hcs with h1 h2
            exact absurd h2.symm hne
          · intro c hc
            rw [heq] at hc
            injection hc with h1 h2
            subst h1
            constructor
            · intro hn
              exact absurd hna hn
            · intro _
              exact ⟨d, hpe, rfl⟩
      · -- child elements named ntype inside
        rename_i nc ncs hna
        rcases hpc : parseChildren (nc :: ncs) nsch with e | vs'
        · rw [hpc] at hof
          simp [Bind.bind, Except.bind] at hof
        · rw [hpc] at hof
          simp only [Bind.bind, Except.bind, pure, Except.pure,
            Except.ok.injEq] at hof
          refine ⟨vs', by rw [← hof]; rfl, ?_, ?_, ?_⟩
          · intro hz
            rw [heq] at hz
            cases hz
          · intro c cs hcs hne
            rw [heq] at hcs
            injection hcs with h1 h2
            exact absurd h2.symm hne
          · intro c hc
            rw [heq] at hc
            injection hc with h1 h2
            subst h1
            constructor
            · intro _
              rw [hna]
              exact parseChildren_mapM (nc :: ncs) nsch vs' hpc
            · intro hn
              rw [hna] at hn
              cases hn
    · -- two or more matching children
      rename_i c1 c2 cs heq
      rcases hpc : parseChildren (c1 :: c2 :: cs) nsch with e | vs'
      · rw [hpc] at hof
        simp [Bind.bind, Except.bind] at hof
      · rw [hpc] at hof
        simp only [Bind.bind, Except.bind, pure, Except.pure,
          Except.ok.injEq] at hof
        refine ⟨vs', by rw [← hof]; rfl, ?_, ?_, ?_⟩
        · intro hz
          rw [heq] at hz
          cases hz
        · intro c cs' hcs hne
          rw [heq] at hcs
          injection hcs with h1 h2
          subst h1
          subst h2
          exact parseChildren_mapM (c1 :: c2 :: cs) nsch vs' hpc
        · intro c hc
          rw [heq] at hc
          injection hc with h1 h2
          cases h2

/-- Witness for claim C4: a wrapper element `<LeagueList>` with two
`<League>` children parses to a two-element list. -/
theorem C4_nested_always_list_witness :
    ∃ vs : List Val,
      [("LeagueList", Val.vList [.vDict [], .vDict []])]
        = [("LeagueList", Val.vList vs)] := by
  obtain ⟨vs, hvs, _⟩ := C4_nested_always_list
    (.mk "r" [] none [.mk "LeagueList" [] none
      [.mk "League" [] none [], .mk "League" [] none []]])
    "LeagueList" "League" (.list []) []
    [("LeagueList", Val.vList [.vDict [], .vDict []])]
    (by
      simp only [parse_element, parseDefs, parseEntries]
      rw [parseOneField_one
        (.mk "r" [] none [.mk "LeagueList" [] none
          [.mk "League" [] none [], .mk "League" [] none []]])
        "LeagueList" "League" (.list []) [] []
        (.mk "LeagueList" [] none
          [.mk "League" [] none [], .mk "League" [] none []])
        rfl]
      rw [show findall
        (.mk "LeagueList" [] none
          [.mk "League" [] none [], .mk "League" [] none []]) "League"
        = [.mk "League" [] none [], .mk "League" [] none []] from rfl]
      simp [parseChildren, parse_element, parseDefs, dset, pure, Except.pure,
        Bind.bind, Except.bind])
  exact ⟨vs, hvs⟩

/-! ## Claim C8 -/

/-- Claim C8, counterexample: `parse_element` contains no exception
handler.  A malformed nested descriptor (empty config dict) makes
`list(field_config.keys())[0]` raise `IndexError`, aborting the parse of
the enclosing object — the sibling scalar field `G` is never resolved
and no mapping is produced. -/
theorem C8_counterexample :
    parse_element (.mk "r" [] none [.mk "G" [] (some "5") []])
      (.list [.dict [("F", .dict [])], .dict [("G", .s "int")]])
      = .error "IndexError: list index out of range" := by
  simp only [parse_element, parseDefs, parseEntries, parseOneField]
  rfl

/-- Simultaneous success of the whole parser cluster on well-formed
schemas, by strong induction on the element size. -/
theorem parseAll_ok : ∀ n : Nat,
    (∀ el schema, xsize el ≤ n → wfSchema schema = true →
      ∃ r, parse_element el schema = .ok r) ∧
    (∀ el fds acc, xsize el ≤ n → wfDefs fds = true →
      ∃ r, parseDefs el fds acc = .ok r) ∧
    (∀ el entries acc, xsize el ≤ n → wfEntries entries = true →
      ∃ r, parseEntries el entries acc = .ok r) ∧
    (∀ el name cfg acc, xsize el ≤ n → wfCfg cfg = true →
      ∃ r, parseOneField el name cfg acc = .ok r) ∧
    (∀ els schema, xsizeList els ≤ n → wfSchema schema = true →
      ∃ r, parseChildren els schema = .ok r) := by
  intro n
  induction n using Nat.strong_induction_on with
  | _ n ih =>
  have q4 : ∀ el name cfg acc, xsize el ≤ n → wfCfg cfg = true →
      ∃ r, parseOneField el name cfg acc = .ok r := by
    intro el name cfg acc hle hwf
    cases cfg with
    | s t => exact exOk (by simp only [parseOneField]; exact rfl)
    | list l => exact exOk (by simp only [parseOneField]; exact rfl)
    | dict entries =>
        cases entries with
        | nil => simp [wfCfg] at hwf
        | cons e restC =>
            obtain ⟨nt, ns⟩ := e
            have hwfns : wfSchema ns = true := by simpa [wfCfg] using hwf
            rcases hfa : findall el name with _ | ⟨c, _ | ⟨c2, cs⟩⟩
            · exact exOk (by
                rw [parseOneField_zero el name nt ns restC acc hfa])
            · have hcel : xsize c < xsize el :=
                xsize_lt_of_findall_eq hfa (by simp)
              rcases hna : findall c nt with _ | ⟨nc, ncs⟩
              · have hlt : xsize c < n := lt_of_lt_of_le hcel hle
                obtain ⟨d, hd⟩ := (ih (xsize c) hlt).1 c ns le_rfl hwfns
                have hred : parseOneField el name (.dict ((nt, ns) :: restC)) acc
                    = (do
                      let d ← parse_element c ns
                      pure (dset acc name (.vList [.vDict d]))) := by
                  rw [parseOneField_one el name nt ns restC acc c hfa, hna]
                exact exOk (by rw [hred, hd]; exact rfl)
              · have hsz : xsizeList (nc :: ncs) < xsize c := by
                  rw [← hna]
                  exact xsizeList_lt_of_findall c nt
                have hlt : xsizeList (nc :: ncs) < n :=
                  lt_of_lt_of_le (lt_trans hsz hcel) hle
                obtain ⟨vs, hvs⟩ := (ih (xsizeList (nc :: ncs)) hlt).2.2.2.2
                  (nc :: ncs) ns le_rfl hwfns
                have hred : parseOneField el name (.dict ((nt, ns) :: restC)) acc
                    = (do
                      let vs ← parseChildren (nc :: ncs) ns
                      pure (dset acc name (.vList vs))) := by
                  rw [parseOneField_one el name nt ns restC acc c hfa, hna]
                exact exOk (by rw [hred, hvs]; exact rfl)
            · have hsz : xsizeList (c :: c2 :: cs) < xsize el := by
                rw [← hfa]
                exact xsizeList_lt_of_findall el name
              have hlt : xsizeList (c :: c2 :: cs) < n := lt_of_lt_of_le hsz hle
              obtain ⟨vs, hvs⟩ := (ih (xsizeList (c :: c2 :: cs)) hlt).2.2.2.2
                (c :: c2 :: cs) ns le_rfl hwfns
              exact exOk (by
                rw [parseOneField_multi el name nt ns restC acc c c2 cs hfa, hvs]
                exact rfl)
  have q3 : ∀ el entries acc, xsize el ≤ n → wfEntries entries = true →
      ∃ r, parseEntries el entries acc = .ok r := by
    intro el entries
    induction entries with
    | nil =>
        intro acc _ _
        exact ⟨acc, by simp only [parseEntries]; rfl⟩
    | cons e rest ihe =>
        intro acc hle hwf
        obtain ⟨name, cfg⟩ := e
        simp only [wfEntries, Bool.and_eq_true] at hwf
        obtain ⟨d1, hd1⟩ := q4 el name cfg acc hle hwf.1
        obtain ⟨r2, hr2⟩ := ihe d1 hle hwf.2
        refine ⟨r2, ?_⟩
        simp only [parseEntries]
        rw [hd1]
        simp only [Bind.bind, Except.bind]
        exact hr2
  have q2 : ∀ el fds acc, xsize el ≤ n → wfDefs fds = true →
      ∃ r, parseDefs el fds acc = .ok r := by
    intro el fds
    induction fds with
    | nil =>
        intro acc _ _
        exact ⟨acc, by simp only [parseDefs]; rfl⟩
    | cons fd rest ihd =>
        intro acc hle hwf
        cases fd with
        | dict entries =>
            simp only [wfDefs, Bool.and_eq_true] at hwf
            obtain ⟨d1, hd1⟩ := q3 el entries acc hle hwf.1
            obtain ⟨r2, hr2⟩ := ihd d1 hle hwf.2
            refine ⟨r2, ?_⟩
            simp only [parseDefs]
            rw [hd1]
            simp only [Bind.bind, Except.bind]
            exact hr2
        | s t => simp [wfDefs] at hwf
        | list l => simp [wfDefs] at hwf
  have q1 : ∀ el schema, xsize el ≤ n → wfSchema schema = true →
      ∃ r, parse_element el schema = .ok r := by
    intro el schema hle hwf
    cases schema with
    | list fds =>
        obtain ⟨r, hr⟩ := q2 el fds [] hle (by simpa [wfSchema] using hwf)
        exact ⟨r, by simp only [parse_element]; exact hr⟩
    | s t => simp [wfSchema] at hwf
    | dict d => simp [wfSchema] at hwf
  have q5 : ∀ els schema, xsizeList els ≤ n → wfSchema schema = true →
      ∃ r, parseChildren els schema = .ok r := by
    intro els schema
    induction els with
    | nil =>
        intro _ _
        exact ⟨[], by simp only [parseChildren]; rfl⟩
    | cons c cs ihc =>
        intro hle hwf
        have hc : xsize c ≤ n :=
          le_trans (by simp [xsizeList]) hle
        have hcs : xsizeList cs ≤ n :=
          le_trans (by simp [xsizeList]) hle
        obtain ⟨d, hd⟩ := q1 c schema hc hwf
        obtain ⟨rest, hrest⟩ := ihc hcs hwf
        refine ⟨Val.vDict d :: rest, ?_⟩
        simp only [parseChildren]
        rw [hd]
        simp only [Bind.bind, Except.bind]
        rw [hrest]
        rfl
  exact ⟨q1, q2, q3, q4, q5⟩

/-- Claim C8, amended: only scalar conversion failures are caught (inside
`safe_cast`, yielding `None` rather than the type default); `parse_element`
itself has no handler, so a malformed nested descriptor aborts the whole
parse.  For every well-formed schema — a list of dict field descriptors
whose nested configs are nonempty dicts — `parse_element` never raises, on
any XML element. -/
theorem C8_amended (el : XmlElement) (schema : Yaml)
    (hwf : wfSchema schema = true) :
    ∃ r, parse_element el schema = .ok r :=
  (parseAll_ok (xsize el)).1 el schema le_rfl hwf

/-- Witness for the amended claim C8: a schema with an unparseable int
field and a nested field still parses successfully. -/
theorem C8_amended_witness :
    ∃ r, parse_element (.mk "r" [] none [.mk "X" [] (some "oops") []])
      (.list [.dict [("X", .s "int"), ("N", .dict [("T", .list [])])]])
      = .ok r :=
  C8_amended (.mk "r" [] none [.mk "X" [] (some "oops") []])
    (.list [.dict [("X", .s "int"), ("N", .dict [("T", .list [])])]])
    (by decide)

/-! ## Claim C5 -/

theorem dget_none_any {α : Type} (d : List (String × α)) (k : String)
    (h : dget d k = none) : d.any (fun e => e.1 = k) = false := by
  induction d with
  | nil => rfl
  | cons e es ih =>
      rw [dget_cons] at h
      by_cases he : e.1 = k
      · rw [if_pos he] at h
        simp at h
      · rw [if_neg he] at h
        simp [List.any_cons, he, ih h]

theorem dset_of_none {α : Type} (d : List (String × α)) (k : String) (v : α)
    (h : dget d k = none) : dset d k v = d ++ [(k, v)] := by
  simp [dset, dget_none_any d k h]

theorem dget_append_left {α : Type} (d1 d2 : List (String × α)) (k : String)
    (h : (dget d1 k).isSome = true) : dget (d1 ++ d2) k = dget d1 k := by
  induction d1 with
  | nil => simp [dget_nil] at h
  | cons e es ih =>
      rw [List.cons_append, dget_cons, dget_cons]
      by_cases he : e.1 = k
      · rw [if_pos he, if_pos he]
      · rw [if_neg he, if_neg he]
        rw [dget_cons, if_neg he] at h
        exact ih h

theorem dget_append_right {α : Type} (d1 d2 : List (String × α)) (k : String)
    (h : dget d1 k = none) : dget (d1 ++ d2) k = dget d2 k := by
  induction d1 with
  | nil => rfl
  | cons e es ih =>
      rw [dget_cons] at h
      by_cases he : e.1 = k
      · rw [if_pos he] at h
        simp at h
      · rw [if_neg he] at h
        rw [List.cons_append, dget_cons, if_neg he]
        exact ih h

/-- The `create_table_schema` field loop on pairwise distinct field names
whose keys are fresh for the accumulator: the resulting dict has exactly
the accumulator keys followed by the field names in order, each new field
mapped to its `resolveOne` resolution, and the accumulator entries are
preserved. -/
theorem tableLoop_ok (aft : List (String × PlType)) (api : List (String × Yaml))
    (tm : List (String × PlType)) :
    ∀ (fs : List String) (acc s : List (String × PlType)),
      fs.Nodup → (∀ f ∈ fs, dget acc f = none) →
      tableLoop fs aft api tm acc = .ok s →
      s.map Prod.fst = acc.map Prod.fst ++ fs
      ∧ (∀ f ∈ fs, ∃ t, resolveOne f aft api tm = .ok t ∧ dget s f = some t)
      ∧ (∀ k, (dget acc k).isSome = true → dget s k = dget acc k) := by
  intro fs
  induction fs with
  | nil =>
      intro acc s _ _ h
      simp only [tableLoop, pure, Except.pure, Except.ok.injEq] at h
      subst h
      exact ⟨by simp, by simp, fun k _ => rfl⟩
  | cons f rest ih =>
      intro acc s hnd hfresh h
      rcases hro : resolveOne f aft api tm with e | t
      · simp [tableLoop, hro, Bind.bind, Except.bind] at h
      · have hfr : dget acc f = none := hfresh f (by simp)
        have hset : dset acc f t = acc ++ [(f, t)] := dset_of_none acc f t hfr
        simp only [tableLoop, hro, Bind.bind, Except.bind] at h
        rw [hset] at h
        have hnd2 : rest.Nodup := (List.nodup_cons.mp hnd).2
        have hne : f ∉ rest := (List.nodup_cons.mp hnd).1
        have hfresh2 : ∀ g ∈ rest, dget (acc ++ [(f, t)]) g = none := by
          intro g hg
          rw [dget_append_right _ _ _ (hfresh g (List.mem_cons_of_mem _ hg))]
          have hgf : ¬ ((f : String) = g) := fun hh => hne (hh ▸ hg)
          simp [dget_cons, dget_nil, hgf]
        obtain ⟨h1, h2, h3⟩ := ih (acc ++ [(f, t)]) s hnd2 hfresh2 h
        have hacc : dget (acc ++ [(f, t)]) f = some t := by
          rw [dget_append_right _ _ _ hfr]
          simp [dget_cons]
        refine ⟨?_, ?_, ?_⟩
        · rw [h1]
          simp
        · intro g hg
          rcases List.mem_cons.mp hg with hg | hg
          · subst hg
            refine ⟨t, hro, ?_⟩
            rw [h3 g (by rw [hacc]; rfl), hacc]
          · exact h2 g hg
        · intro k hk
          have hll : dget (acc ++ [(f, t)]) k = dget acc k :=
            dget_append_left acc [(f, t)] k hk
          rw [h3 k (by rw [hll]; exact hk), hll]

/-- C5: the materialized table has exactly the declared field names as its
columns, in declaration order; each column's type is what the resolution
chain (exact match in the flattened name-to-type map, then suffix match
ignoring the dotted path, then the top-level schema scan, then `Utf8`)
produces; and the schema attached to the table by the transformation is
this same one regardless of the raw data — in particular an empty
extraction still yields the fully typed schema. -/
theorem C5_table_schema (cfg : TableConfig) (api : List (String × Yaml))
    (types : List (String × String)) (aft s : List (String × PlType))
    (hnd : cfg.fields.Nodup)
    (haft : extract_field_types api types = .ok aft)
    (hs : create_table_schema cfg.fields api types = .ok s) :
    s.map Prod.fst = cfg.fields
    ∧ (∀ f ∈ cfg.fields, ∃ t,
        resolveOne f aft api (get_polars_type_mapping types) = .ok t
        ∧ dget s f = some t)
    ∧ (∀ raw n rest r1 out,
        transform_data raw ((n, cfg) :: rest) api types = .ok (r1, out) →
        ∃ rows tail, out = (n, (s, rows)) :: tail) := by
  have hloop : tableLoop cfg.fields aft api (get_polars_type_mapping types) []
      = .ok s := by
    simp only [create_table_schema, haft, Bind.bind, Except.bind] at hs
    exact hs
  obtain ⟨h1, h2, h3⟩ :=
    tableLoop_ok aft api (get_polars_type_mapping types) cfg.fields [] s hnd
      (fun f _ => dget_nil f) hloop
  refine ⟨by simpa using h1, h2, ?_⟩
  intro raw n rest r1 out h
  rcases hex : extract_data_from_path raw cfg.source_path cfg.foreign_key
      cfg.parent_fields with e | er
  · simp [transform_data, hex, Bind.bind, Except.bind] at h
  · rcases htr : transform_data er.1 rest api types with e | r
    · simp [transform_data, hex, hs, htr, Bind.bind, Except.bind] at h
    · simp only [transform_data, hex, hs, htr, Bind.bind, Except.bind, pure,
        Except.pure, Except.ok.injEq, Prod.mk.injEq] at h
      obtain ⟨h4, h5⟩ := h
      subst h5
      exact ⟨_, _, rfl⟩

/-- Witness for C5 at a concrete schema exercising all three non-trivial
stages of the chain: `LeagueID` by exact match, `CountryName` by suffix
match, `Foo` by the `Utf8` fallback. -/
theorem C5_table_schema_witness :
    (["LeagueID", "CountryName", "Foo"] : List String).Nodup
    ∧ extract_field_types
        [("HattrickData", Yaml.list [Yaml.dict [("LeagueID", Yaml.s "int"),
          ("Country", Yaml.dict [("Country", Yaml.list [Yaml.dict
            [("CountryID", Yaml.s "int"), ("CountryName", Yaml.s "str")]])])]])]
        [("int", "Int64"), ("str", "Utf8")]
      = .ok [("LeagueID", PlType.int64), ("Country.CountryID", PlType.int64),
             ("Country.CountryName", PlType.utf8)]
    ∧ ([("LeagueID", PlType.int64), ("CountryName", PlType.utf8),
        ("Foo", PlType.utf8)] : List (String × PlType)).map Prod.fst
      = ["LeagueID", "CountryName", "Foo"] :=
  ⟨by decide, by decide,
   (C5_table_schema
     ⟨"LeagueList", ["LeagueID", "CountryName", "Foo"], none, []⟩
     [("HattrickData", Yaml.list [Yaml.dict [("LeagueID", Yaml.s "int"),
       ("Country", Yaml.dict [("Country", Yaml.list [Yaml.dict
         [("CountryID", Yaml.s "int"), ("CountryName", Yaml.s "str")]])])]])]
     [("int", "Int64"), ("str", "Utf8")]
     [("LeagueID", PlType.int64), ("Country.CountryID", PlType.int64),
      ("Country.CountryName", PlType.utf8)]
     [("LeagueID", PlType.int64), ("CountryName", PlType.utf8),
      ("Foo", PlType.utf8)]
     (by decide) (by decide) (by decide)).1⟩

end HtChpp
